import Mathlib

/-!
A shallow embedding of `napari_plugin_engine/manager.py` (the `PluginManager`
class and its module-level helpers).  The registry state is made explicit: the
Python object's mutable attributes become fields of a `PluginManager`
structure, and each method becomes a function from the old state to the new
state.  A method that can raise returns the mutated state together with an
`Except`/`Option` error value, because in the source an exception propagates
while the manager object keeps every mutation performed before the raise.

The classes `HookCaller` (from `hooks.py`) and `HookImplementation` (from
`implementation.py`) are not part of the sources; the small amount of state
and behaviour of theirs that `manager.py` uses is modelled from the spec and
marked as such.
-/

set_option linter.unusedVariables false

/-- Modelled from the spec (§3 Implementation, priority first/neutral/last):
the ordering flag of a hook implementation (`tryfirst` / neutral /
`trylast`).  The class carrying it, `HookImplementation`, is not in the
sources. -/
inductive HookPriority
  | first
  | neutral
  | last
deriving DecidableEq, Repr

/-- Modelled from the spec (§3 Implementation): one callable contributed by
one plugin for one hook name.  `plugin` is the Python identity of the owning
namespace object; `plugin_name` is assigned by `PluginManager.register`;
`argnames` are the parameter names the callable accepts. -/
structure HookImplementation where
  plugin : Nat
  plugin_name : Option String
  specname : String
  argnames : List String
  hookwrapper : Bool
  optionalhook : Bool
  priority : HookPriority
deriving DecidableEq, Repr

/-- Modelled from the spec (§3 Specification): the declared parameter names
and call-policy flags of a hook specification.  `warn_on_impl` only produces
a warning in `_verify_hook` and is not modelled. -/
structure HookSpecification where
  argnames : List String
  historic : Bool
  firstresult : Bool
deriving DecidableEq, Repr

/-- Modelled from the spec (§3 Hook Caller): hook name, optional bound
specification, and the ordered list of attached implementations.  The
historic call log only drives dispatch/replay of callables and never feeds
back into the registry state, so it is omitted here. -/
structure HookCaller where
  name : String
  spec : Option HookSpecification
  hookimpls : List HookImplementation
deriving DecidableEq, Repr

/-- `HookCaller.has_spec()` (modelled from the spec): whether a specification
is bound. -/
def HookCaller.has_spec (hc : HookCaller) : Bool := hc.spec.isSome

/-- `HookCaller.is_historic()` (modelled from the spec): a caller is historic
when its bound specification carries the historic flag; a caller without a
bound specification is not historic. -/
def HookCaller.is_historic (hc : HookCaller) : Bool :=
  match hc.spec with
  | some s => s.historic
  | none => false

/-- `HookCaller.get_hookimpls()` (modelled from the spec): the attached
implementations, in caller order. -/
def HookCaller.get_hookimpls (hc : HookCaller) : List HookImplementation := hc.hookimpls

/-- `HookCaller._add_hookimpl` (modelled from the spec §3 ordering invariant):
the new implementation is inserted at the head of its priority group, so each
group is in reverse registration order and the groups are laid out as
first-group ++ neutral-group ++ last-group. -/
def addHookimpl (l : List HookImplementation) (i : HookImplementation) :
    List HookImplementation :=
  match i.priority with
  | .first => i :: l
  | .neutral =>
      l.takeWhile (fun j => j.priority = HookPriority.first) ++
        i :: l.dropWhile (fun j => j.priority = HookPriority.first)
  | .last =>
      l.takeWhile (fun j => ¬ j.priority = HookPriority.last) ++
        i :: l.dropWhile (fun j => ¬ j.priority = HookPriority.last)

/-- `HookCaller._remove_plugin` (modelled from the spec §4.4): removes exactly
the given plugin's implementations, preserving the order of the rest. -/
def HookCaller.remove_plugin (hc : HookCaller) (pid : Nat) : HookCaller :=
  { hc with hookimpls := hc.hookimpls.filter (fun i => ¬ i.plugin = pid) }

/-- Why `_verify_hook` rejected an implementation (or `check_pending` a
pending hook). -/
inductive ValidationReason
  | historicHookwrapper
  | argsNotInSpec (notinspec : List String)
  | unknownHook
deriving DecidableEq, Repr

/-- The exceptions `manager.py` raises.  `dupName`, `dupModule`,
`invalidIdentifiers` and `noHooksFound` are `ValueError`s; `validation` is
`PluginValidationError` (carrying the offending implementation and the hook
name, as the source constructor and message do); `importError` and
`registrationError` are `PluginImportError` / `PluginRegistrationError`. -/
inductive PMError
  | dupName (name : String)
  | dupModule (pid : Nat)
  | invalidIdentifiers (bad : List String)
  | noHooksFound
  | validation (impl : HookImplementation) (hook_name : String) (reason : ValidationReason)
  | importError (plugin_name : Option String)
  | registrationError (plugin_name : Option String)
deriving DecidableEq, Repr

/-- Which modelled exceptions are subclasses of `PluginError` (used by the
`except PluginError` clauses of the discovery loops; `ValueError`s are not). -/
def PMError.isPluginError : PMError → Bool
  | .validation _ _ _ => true
  | .importError _ => true
  | .registrationError _ => true
  | _ => false

/-- A plugin namespace object (class or module): its Python identity `id`,
its canonical name (`get_canonical_name`: `__name__` or `str(id(ns))`), and
the implementations `iter_implementations` yields for it, in `dir` order. -/
structure PluginNamespace where
  id : Nat
  canonical : String
  impls : List HookImplementation
deriving DecidableEq, Repr

/-- A namespace passed to `add_hookspecs`: the methods of the namespace that
carry project-scoped spec options, in `dir` order, each with the
specification built from the method's signature and options. -/
structure SpecNamespace where
  specs : List (String × HookSpecification)
deriving DecidableEq, Repr

/-- The mutable state of a `PluginManager` (`__init__`): `plugins` is the
name → plugin-identity dict, `plugin2hookcallers` the plugin-identity →
contributed-caller-names dict, `blocked` the `_blocked` set, `hook` the
`_HookRelay.__dict__` holding the hook callers keyed by attribute name (in
`setattr` insertion order), and `needs_discovery` the relay's
`_needs_discovery` flag.  `project_name` only scopes the marker attribute
lookup, which is abstracted into the namespace records, so it is omitted. -/
structure PluginManager where
  plugins : List (String × Nat)
  plugin2hookcallers : List (Nat × List String)
  blocked : List String
  hook : List (String × HookCaller)
  needs_discovery : Bool
  discover_entry_point : String
  discover_pfx : String
deriving DecidableEq, Repr

/-- A freshly constructed manager with no discovery configuration. -/
def PluginManager.init : PluginManager :=
  ⟨[], [], [], [], true, "", ""⟩

/-- `getattr(self.hook, name, None)` as a plain dictionary lookup.  (The
relay's discovery trigger is modelled separately by `relay_getattribute`;
the registry operations are modelled at states where discovery has already
run or is blocked, i.e. the flag is consumed.) -/
def PluginManager.getHook (st : PluginManager) (n : String) : Option HookCaller :=
  (st.hook.find? (fun p => p.1 = n)).map (fun p => p.2)

/-- `setattr(self.hook, name, hook_caller)`: replace in place when the key
exists, append otherwise (dict insertion-order semantics). -/
def PluginManager.setHook (st : PluginManager) (n : String) (hc : HookCaller) :
    PluginManager :=
  if st.hook.any (fun p => p.1 = n) then
    { st with hook := st.hook.map (fun p => if p.1 = n then (n, hc) else p) }
  else
    { st with hook := st.hook ++ [(n, hc)] }

/-- `PluginManager.is_blocked`. -/
def PluginManager.is_blocked (st : PluginManager) (n : String) : Bool :=
  st.blocked.contains n

/-- `PluginManager.is_registered` applied to a string (membership in
`self.plugins`). -/
def PluginManager.is_registered_name (st : PluginManager) (n : String) : Bool :=
  st.plugins.any (fun p => p.1 = n)

/-- `PluginManager.is_registered` applied to a namespace object (membership
in `self._plugin2hookcallers`, i.e. by object identity). -/
def PluginManager.is_registered_module (st : PluginManager) (pid : Nat) : Bool :=
  st.plugin2hookcallers.any (fun p => p.1 = pid)

/-- `PluginManager._verify_hook`: historic callers reject hookwrappers; with
a bound spec, every implementation argument must occur among the spec's
argnames (the source forms `set(impl.argnames) - set(spec.argnames)`; the
order/multiplicity of the offending names is immaterial, only emptiness is
branched on).  `warn_on_impl` merely emits a warning and is not modelled. -/
def verify_hook (hc : HookCaller) (impl : HookImplementation) : Option PMError :=
  if hc.is_historic && impl.hookwrapper then
    some (.validation impl hc.name .historicHookwrapper)
  else
    match hc.spec with
    | none => none
    | some s =>
        let notinspec := impl.argnames.filter (fun a => ¬ a ∈ s.argnames)
        if notinspec.isEmpty then none
        else some (.validation impl hc.name (.argsNotInSpec notinspec))

/-- The `for hookimpl in iter_implementations(...)` loop of
`PluginManager.register` (lines 437-452): sets the implementation's
`plugin_name`, finds or creates the hook caller, verifies against a bound
spec, then attaches.  The returned list is `hookcallers`, the caller names
collected for the plugin; on a verification error the loop stops and the
state mutated so far is kept (the exception propagates out of `register`).
`_maybe_apply_history` only replays callables and does not change registry
state, so it does not appear. -/
def registerImpls :
    PluginManager → String → Nat → List HookImplementation →
      PluginManager × Except PMError (List String)
  | st, _, _, [] => (st, .ok [])
  | st, pn, pid, impl0 :: rest =>
    let impl := { impl0 with plugin := pid, plugin_name := some pn }
    match st.getHook impl.specname with
    | none =>
        let hc : HookCaller := ⟨impl.specname, none, addHookimpl [] impl⟩
        match registerImpls (st.setHook impl.specname hc) pn pid rest with
        | (st', .ok callers) => (st', .ok (impl.specname :: callers))
        | (st', .error e) => (st', .error e)
    | some hc =>
        if hc.has_spec then
          match verify_hook hc impl with
          | some e => (st, .error e)
          | none =>
              let hc' := { hc with hookimpls := addHookimpl hc.hookimpls impl }
              match registerImpls (st.setHook impl.specname hc') pn pid rest with
              | (st', .ok callers) => (st', .ok (impl.specname :: callers))
              | (st', .error e) => (st', .error e)
        else
          let hc' := { hc with hookimpls := addHookimpl hc.hookimpls impl }
          match registerImpls (st.setHook impl.specname hc') pn pid rest with
          | (st', .ok callers) => (st', .ok (impl.specname :: callers))
          | (st', .error e) => (st', .error e)

/-- `PluginManager.register` on a class/module namespace (the string and dict
entry branches are `register_dict` below; strings raise `TypeError` before
any state is touched).  A blocked name is a silent no-op returning `none`;
duplicate name / duplicate object raise before any mutation; otherwise the
implementation loop runs and, on success, the plugin is recorded in both
tables. -/
def PluginManager.register (st : PluginManager) (ns : PluginNamespace)
    (name : Option String) : PluginManager × Except PMError (Option String) :=
  let pn := name.getD ns.canonical
  if st.is_blocked pn then (st, .ok none)
  else if st.is_registered_name pn then (st, .error (.dupName pn))
  else if st.is_registered_module ns.id then (st, .error (.dupModule ns.id))
  else
    match registerImpls st pn ns.id ns.impls with
    | (st', .error e) => (st', .error e)
    | (st', .ok callers) =>
        ({ st' with
            plugin2hookcallers := st'.plugin2hookcallers ++ [(ns.id, callers)],
            plugins := st'.plugins ++ [(pn, ns.id)] },
         .ok (some pn))

/-- `PluginManager.get_name` restricted to identities: the first registered
name whose plugin object is the given one. -/
def PluginManager.get_name (st : PluginManager) (pid : Nat) : Option String :=
  (st.plugins.find? (fun p => p.2 = pid)).map (fun p => p.1)

/-- `PluginManager.unregister` by plugin name: an unknown name warns and
returns `none` with the state unchanged; otherwise the plugin is removed
from both tables and its implementations are removed from every hook caller
it contributed to (`_remove_plugin`). -/
def PluginManager.unregister (st : PluginManager) (n : String) :
    PluginManager × Option Nat :=
  match st.plugins.find? (fun p => p.1 = n) with
  | none => (st, none)
  | some p =>
      let pid := p.2
      let delname := (st.get_name pid).getD n
      let callers :=
        ((st.plugin2hookcallers.find? (fun q => q.1 = pid)).map (fun q => q.2)).getD []
      ({ st with
          plugins := st.plugins.filter (fun q => ¬ q.1 = delname),
          plugin2hookcallers := st.plugin2hookcallers.filter (fun q => ¬ q.1 = pid),
          hook := st.hook.map (fun q =>
            if callers.contains q.1 then (q.1, q.2.remove_plugin pid) else q) },
       some pid)

/-- `self._blocked.add(plugin_name)`: a set insertion, so adding an existing
member changes nothing. -/
def PluginManager.addBlocked (st : PluginManager) (n : String) : PluginManager :=
  { st with blocked := if st.blocked.contains n then st.blocked else st.blocked ++ [n] }

/-- `PluginManager.set_blocked`: blocking adds the name to `_blocked` and
unregisters it when currently registered; unblocking removes the name when
present. -/
def PluginManager.set_blocked (st : PluginManager) (n : String) (blocked : Bool) :
    PluginManager :=
  if blocked then
    if (st.addBlocked n).is_registered_name n then ((st.addBlocked n).unregister n).1
    else st.addBlocked n
  else
    { st with blocked := st.blocked.filter (fun m => ¬ m = n) }

/-- The inner `for hookfunction in hook_caller.get_hookimpls()` verification
loop of `add_hookspecs`: returns the first verification error, if any. -/
def verifyAll (hc : HookCaller) : List HookImplementation → Option PMError
  | [] => none
  | i :: rest =>
    match verify_hook hc i with
    | some e => some e
    | none => verifyAll hc rest

/-- The `for name in dir(namespace)` loop of `PluginManager.add_hookspecs`
(lines 567-591), restricted to the methods that do carry spec options: each
either creates a fresh caller with the spec bound, or binds the spec to the
existing caller (`set_specification`, modelled from the spec §4.3) and then
re-verifies every already-attached implementation, raising on the first
mismatch with the state mutated so far kept. -/
def addHookspecsLoop :
    PluginManager → List (String × HookSpecification) →
      PluginManager × Except PMError (List String)
  | st, [] => (st, .ok [])
  | st, (n, sp) :: rest =>
    match st.getHook n with
    | none =>
        match addHookspecsLoop (st.setHook n ⟨n, some sp, []⟩) rest with
        | (st', .ok names) => (st', .ok (n :: names))
        | (st', .error e) => (st', .error e)
    | some hc =>
        let hc' := { hc with spec := some sp }
        let st1 := st.setHook n hc'
        match verifyAll hc' hc'.hookimpls with
        | some e => (st1, .error e)
        | none =>
            match addHookspecsLoop st1 rest with
            | (st', .ok names) => (st', .ok (n :: names))
            | (st', .error e) => (st', .error e)

/-- `PluginManager.add_hookspecs`: runs the loop above and raises
`ValueError` when the namespace contributed no specifications. -/
def PluginManager.add_hookspecs (st : PluginManager) (ns : SpecNamespace) :
    PluginManager × Option PMError :=
  match addHookspecsLoop st ns.specs with
  | (st', .error e) => (st', some e)
  | (st', .ok names) =>
      if names.isEmpty then (st', some .noHooksFound) else (st', none)

/-- Python's `str.startswith` (used by the naming-convention scan), written
over the character lists so that it evaluates by reduction. -/
def strStartsWith (s p : String) : Bool :=
  p.toList.isPrefixOf s.toList

/-- The `for name in self.hook.__dict__` loop of
`PluginManager.check_pending`: private attribute names (leading underscore)
are skipped; for every caller without a bound spec, the first implementation
lacking the optional flag raises `PluginValidationError` naming it and the
hook. -/
def checkPendingLoop : List (String × HookCaller) → Option PMError
  | [] => none
  | (n, hc) :: rest =>
    if strStartsWith n "_" then checkPendingLoop rest
    else if hc.has_spec then checkPendingLoop rest
    else
      match hc.get_hookimpls.find? (fun i => ¬ i.optionalhook = true) with
      | some i => some (.validation i n .unknownHook)
      | none => checkPendingLoop rest

/-- `PluginManager.check_pending` (the relay's `__dict__` also holds
`_manager` and `_needs_discovery`, which the leading-underscore test skips;
here `hook` holds only the callers, and the same test applies to their
names). -/
def PluginManager.check_pending (st : PluginManager) : Option PMError :=
  checkPendingLoop st.hook

/-- Python's `str.isidentifier` for ASCII strings: nonempty, first character
a letter or underscore, the rest letters, digits or underscores. -/
def isPyIdentifier (s : String) : Bool :=
  match s.toList with
  | [] => false
  | c :: cs =>
      (c.isAlpha || c = '_') && cs.all (fun d => d.isAlphanum || d = '_')

/-- A value of a dict namespace: whether the Python value is callable at
all (functions are callable, but so are builtins, classes and instances
with a call method), whether `inspect.isfunction` holds of it (the only
test `_register_dict` performs), and the parameter names of the callable. -/
structure DictValue where
  callable : Bool
  isfunction : Bool
  argnames : List String
deriving DecidableEq, Repr

/-- `PluginManager._register_dict` followed by `ensure_namespace`: non-
function values are dropped, the remaining keys are checked to be valid
identifiers (`ValueError` otherwise), and the surviving pairs are marked as
implementations (specname = key, default implementation options) on a fresh
`type('orphan', (), clean_dct)` namespace, which is then registered.
`freshId` is the identity of that fresh type object. -/
def PluginManager.register_dict (st : PluginManager)
    (dct : List (String × DictValue)) (name : Option String) (freshId : Nat) :
    PluginManager × Except PMError (Option String) :=
  let clean := dct.filter (fun kv => kv.2.isfunction)
  let bad := (clean.map (fun kv => kv.1)).filter (fun k => ¬ isPyIdentifier k)
  if bad.isEmpty then
    let ns : PluginNamespace :=
      { id := freshId, canonical := "orphan",
        impls := clean.map (fun kv =>
          { plugin := freshId, plugin_name := none, specname := kv.1,
            argnames := kv.2.argnames, hookwrapper := false,
            optionalhook := false, priority := .neutral }) }
    st.register ns name
  else (st, .error (.invalidIdentifiers bad))

/-- A name-to-callable mapping refuting C7 as stated: the sole key is not a
valid identifier, and its value is callable but not a function (as a
builtin or a class object would be), so the `isfunction` filter of
`_register_dict` drops the entry before `ensure_namespace` ever sees the
key. -/
def claim7Dct : List (String × DictValue) := [("bad key", ⟨true, false, []⟩)]

/-- An entry point yielded by `importlib_metadata.distributions()` while
loading: its group, its name, and the external outcome of
`ep.load()`/`importlib.import_module` (`none` when importing raises, which
`_load_and_register` wraps as `PluginImportError`). -/
structure EntryPointCandidate where
  group : String
  name : String
  load : Option PluginNamespace
deriving DecidableEq, Repr

/-- A module yielded by `pkgutil.iter_modules()` while loading by naming
convention: its module name, the installed-distribution display name when
available, and the external import outcome. -/
structure ModuleCandidate where
  mod_name : String
  dist_name : Option String
  load : Option PluginNamespace
deriving DecidableEq, Repr

/-- Python truthiness of the `Optional[str]` returned by
`_load_and_register` (`None` and the empty string are falsy). -/
def strTruthy : Option String → Bool
  | some s => ¬ s = ""
  | none => false

/-- `PluginManager._load_and_register`: an import failure raises
`PluginImportError`; a module that is already registered (by identity)
returns `None`; otherwise `register` runs, `PluginError` subclasses
propagate unchanged and any other exception is wrapped as
`PluginRegistrationError`.  (The modelled namespaces are always modules or
classes, so the "neither a module nor a class" branch cannot fire.) -/
def load_and_register (st : PluginManager) (load : Option PluginNamespace)
    (plugin_name : Option String) : PluginManager × Except PMError (Option String) :=
  match load with
  | none => (st, .error (.importError plugin_name))
  | some ns =>
      if st.is_registered_module ns.id then (st, .ok none)
      else
        match st.register ns plugin_name with
        | (st', .error e) =>
            (st', .error (if e.isPluginError then e else .registrationError plugin_name))
        | (st', .ok r) => (st', .ok r)

/-- The `for dist ... for ep ...` loop of `PluginManager.load_entrypoints`,
with the flattened candidate list explicit and the `count`/`errors`
accumulators read off the recursive result (a prepended error corresponds to
the source's in-order `errors.append`).  A failing candidate is appended to
the error list and blocked; with `ignore_errors` the loop continues,
otherwise the error is raised with the mutations (including the block) kept. -/
def loadEntrypointsLoop :
    PluginManager → String → String → Bool → List EntryPointCandidate →
      PluginManager × Except PMError (Nat × List PMError)
  | st, _, _, _, [] => (st, .ok (0, []))
  | st, group, nm, ignore_errors, ep :: rest =>
    if ¬ ep.group = group ∨ (¬ nm = "" ∧ ¬ ep.name = nm) ∨
        st.is_registered_name ep.name = true ∨ st.is_blocked ep.name = true then
      loadEntrypointsLoop st group nm ignore_errors rest
    else
      match load_and_register st ep.load (some ep.name) with
      | (st', .ok r) =>
          match loadEntrypointsLoop st' group nm ignore_errors rest with
          | (st'', .ok (c, errs)) => (st'', .ok ((if strTruthy r then 1 else 0) + c, errs))
          | (st'', .error e) => (st'', .error e)
      | (st', .error e) =>
          let st2 := st'.set_blocked ep.name true
          if ignore_errors then
            match loadEntrypointsLoop st2 group nm ignore_errors rest with
            | (st3, .ok (c, errs)) => (st3, .ok (c, e :: errs))
            | (st3, .error e2) => (st3, .error e2)
          else (st2, .error e)

/-- `PluginManager.load_entrypoints`: an empty group or the
`DISABLE_ENTRYPOINT_PLUGINS` environment toggle short-circuits. -/
def PluginManager.load_entrypoints (st : PluginManager) (disabled : Bool)
    (eps : List EntryPointCandidate) (group : String) (nm : String)
    (ignore_errors : Bool) : PluginManager × Except PMError (Nat × List PMError) :=
  if group = "" ∨ disabled then (st, .ok (0, []))
  else loadEntrypointsLoop st group nm ignore_errors eps

/-- The `for finder, mod_name, ispkg in pkgutil.iter_modules()` loop of
`PluginManager.load_modules_by_prefix` (the source method of that name),
same error policy as the entry-point loop. -/
def loadModulesLoop :
    PluginManager → String → Bool → List ModuleCandidate →
      PluginManager × Except PMError (Nat × List PMError)
  | st, _, _, [] => (st, .ok (0, []))
  | st, pfx, ignore_errors, m :: rest =>
    if ¬ strStartsWith m.mod_name pfx then loadModulesLoop st pfx ignore_errors rest
    else
      let name := m.dist_name.getD m.mod_name
      if st.is_registered_name name = true ∨ st.is_blocked name = true then
        loadModulesLoop st pfx ignore_errors rest
      else
        match load_and_register st m.load (some name) with
        | (st', .ok r) =>
            match loadModulesLoop st' pfx ignore_errors rest with
            | (st'', .ok (c, errs)) => (st'', .ok ((if strTruthy r then 1 else 0) + c, errs))
            | (st'', .error e) => (st'', .error e)
        | (st', .error e) =>
            let st2 := st'.set_blocked name true
            if ignore_errors then
              match loadModulesLoop st2 pfx ignore_errors rest with
              | (st3, .ok (c, errs)) => (st3, .ok (c, e :: errs))
              | (st3, .error e2) => (st3, .error e2)
            else (st2, .error e)

/-- The source's `load_modules_by_prefix`: an empty module-name stem or the
`DISABLE_PREFIX_PLUGINS` environment toggle short-circuits. -/
def PluginManager.load_prefixed_modules (st : PluginManager) (disabled : Bool)
    (mods : List ModuleCandidate) (pfx : String) (ignore_errors : Bool) :
    PluginManager × Except PMError (Nat × List PMError) :=
  if disabled ∨ pfx = "" then (st, .ok (0, []))
  else loadModulesLoop st pfx ignore_errors mods

/-- The external world `discover` scans: the three environment toggles and
the candidates the two scans yield. -/
structure DiscoveryEnv where
  disable_all : Bool
  disable_entrypoints : Bool
  disable_pfx_modules : Bool
  entrypoints : List EntryPointCandidate
  modules : List ModuleCandidate

/-- `PluginManager.discover` with no overrides: the relay's
`_needs_discovery` flag is cleared first (line 187, before anything is
loaded), then `DISABLE_ALL_PLUGINS` may short-circuit, then the two loading
passes run with the stored configuration. -/
def PluginManager.discover (st : PluginManager) (env : DiscoveryEnv)
    (ignore_errors : Bool) : PluginManager × Except PMError (Nat × List PMError) :=
  let st0 := { st with needs_discovery := false }
  if env.disable_all then (st0, .ok (0, []))
  else
    match st0.load_entrypoints env.disable_entrypoints env.entrypoints
        st0.discover_entry_point "" ignore_errors with
    | (st1, .error e) => (st1, .error e)
    | (st1, .ok (c1, e1)) =>
        match st1.load_prefixed_modules env.disable_pfx_modules env.modules
            st1.discover_pfx ignore_errors with
        | (st2, .error e) => (st2, .error e)
        | (st2, .ok (c2, e2)) => (st2, .ok (c1 + c2, e1 ++ e2))

/-- `_HookRelay.__getattribute__`: any attribute access other than the two
private fields triggers `manager.discover()` while `_needs_discovery` is
set.  Returns the resulting state and whether a discovery pass was started. -/
def relay_getattribute (st : PluginManager) (env : DiscoveryEnv) (attr : String) :
    PluginManager × Bool :=
  if ¬ attr = "_needs_discovery" ∧ ¬ attr = "_manager" ∧ st.needs_discovery then
    ((st.discover env true).1, true)
  else (st, false)

/-- The registry state midway through a (default, error-collecting) discovery
pass: after the flag is cleared and the first `k` entry-point candidates have
been processed. -/
def discoverMidEntrypoints (st : PluginManager) (env : DiscoveryEnv) (k : Nat) :
    PluginManager :=
  ({ st with needs_discovery := false }.load_entrypoints env.disable_entrypoints
    (env.entrypoints.take k) st.discover_entry_point "" true).1

/-- The registry state midway through a discovery pass, during the second
(naming-convention) scan: all entry points processed, then the first `k`
module candidates. -/
def discoverMidModules (st : PluginManager) (env : DiscoveryEnv) (k : Nat) :
    PluginManager :=
  let st1 := ({ st with needs_discovery := false }.load_entrypoints
    env.disable_entrypoints env.entrypoints st.discover_entry_point "" true).1
  (st1.load_prefixed_modules env.disable_pfx_modules (env.modules.take k)
    st1.discover_pfx true).1

/-! ### Helper lemmas about the modelled operations -/

/-- The spec's global invariant: every implementation attached to a hook
caller with a bound specification only uses parameter names declared by that
specification. -/
def SpecSubsetInv (st : PluginManager) : Prop :=
  ∀ p ∈ st.hook, ∀ s, p.2.spec = some s →
    ∀ i ∈ p.2.hookimpls, ∀ a ∈ i.argnames, a ∈ s.argnames

/-- One successfully completing public registry operation (an operation that
raises is an aborted attempt; its partially mutated state is not an
accepted registry state). -/
inductive PMStep : PluginManager → PluginManager → Prop
  | register (st : PluginManager) (ns : PluginNamespace) (nm : Option String)
      (r : Option String) (h : (st.register ns nm).2 = .ok r) :
      PMStep st (st.register ns nm).1
  | add_hookspecs (st : PluginManager) (ns : SpecNamespace)
      (h : (st.add_hookspecs ns).2 = none) :
      PMStep st (st.add_hookspecs ns).1
  | unregister (st : PluginManager) (n : String) :
      PMStep st (st.unregister n).1
  | set_blocked (st : PluginManager) (n : String) (b : Bool) :
      PMStep st (st.set_blocked n b)

/-- A registry state reachable from a fresh manager through the public
operations. -/
def PMReachable (st : PluginManager) : Prop :=
  Relation.ReflTransGen PMStep PluginManager.init st

def claim1Ns : PluginNamespace :=
  ⟨1, "p1", [⟨0, none, "hookA", ["x"], false, false, .neutral⟩]⟩

def claim1Specs : SpecNamespace :=
  ⟨[("hookA", ⟨["x", "y"], false, false⟩)]⟩

def claim1WitnessState : PluginManager :=
  (((PluginManager.init.register claim1Ns none).1).add_hookspecs claim1Specs).1

def claim2St : PluginManager :=
  (PluginManager.init.register ⟨1, "p1", []⟩ none).1

def claim3St : PluginManager :=
  (PluginManager.init.register
    ⟨1, "p1", [⟨0, none, "h", ["x"], false, false, .neutral⟩]⟩ none).1

def claim3Hc : HookCaller :=
  ⟨"h", none, [⟨1, some "p1", "h", ["x"], false, false, .neutral⟩]⟩

def claim4St : PluginManager :=
  (PluginManager.init.register ⟨1, "p1", []⟩ none).1

def claim5Sp : HookSpecification := ⟨["x"], true, false⟩

def claim5StA : PluginManager :=
  (PluginManager.init.add_hookspecs ⟨[("h", claim5Sp)]⟩).1

def claim5Impl : HookImplementation := ⟨0, none, "h", ["x"], true, false, .neutral⟩

def claim5Ns : PluginNamespace := ⟨1, "p", [claim5Impl]⟩

def claim5StB : PluginManager :=
  (PluginManager.init.register claim5Ns none).1

def claim5HcB : HookCaller :=
  ⟨"h", none, [⟨1, some "p", "h", ["x"], true, false, .neutral⟩]⟩

def claim6Ep : EntryPointCandidate := ⟨"g", "cand", none⟩

def claim6Mod : ModuleCandidate := ⟨"app_x", some "xdist", none⟩

def claim6StB : PluginManager :=
  (PluginManager.init.set_blocked "cand" true).set_blocked "xdist" true

def claim8St : PluginManager :=
  (PluginManager.init.register
    ⟨1, "p1", [⟨0, none, "_h", ["x"], false, false, .neutral⟩]⟩ none).1

def claim8WSt : PluginManager :=
  (PluginManager.init.register
    ⟨1, "p1", [⟨0, none, "h", ["x"], false, false, .neutral⟩]⟩ none).1

def claim10St : PluginManager :=
  (PluginManager.init.add_hookspecs ⟨[("h2", ⟨[], false, false⟩)]⟩).1

def claim10I1 : HookImplementation := ⟨0, none, "h1", ["x"], false, false, .neutral⟩

def claim10I2 : HookImplementation := ⟨0, none, "h2", ["y"], false, false, .neutral⟩

def claim10Ns : PluginNamespace := ⟨1, "p", [claim10I1, claim10I2]⟩

theorem mem_addHookimpl_self (l : List HookImplementation) (i : HookImplementation) :
    i ∈ addHookimpl l i := by
  unfold addHookimpl
  cases i.priority <;> simp

theorem mem_addHookimpl {l : List HookImplementation} {i x : HookImplementation}
    (hx : x ∈ addHookimpl l i) : x = i ∨ x ∈ l := by
  rcases h : i.priority with _ | _ | _ <;> simp only [addHookimpl, h] at hx
  · rcases List.mem_cons.mp hx with hx | hx
    · exact Or.inl hx
    · exact Or.inr hx
  · rcases List.mem_append.mp hx with hx | hx
    · exact Or.inr (List.takeWhile_sublist _ |>.subset hx)
    · rcases List.mem_cons.mp hx with hx | hx
      · exact Or.inl hx
      · exact Or.inr (List.dropWhile_sublist _ |>.subset hx)
  · rcases List.mem_append.mp hx with hx | hx
    · exact Or.inr (List.takeWhile_sublist _ |>.subset hx)
    · rcases List.mem_cons.mp hx with hx | hx
      · exact Or.inl hx
      · exact Or.inr (List.dropWhile_sublist _ |>.subset hx)

theorem setHook_hook_mem {st : PluginManager} {n : String} {hc : HookCaller}
    {p : String × HookCaller} (hp : p ∈ (st.setHook n hc).hook) :
    p = (n, hc) ∨ p ∈ st.hook := by
  unfold PluginManager.setHook at hp
  split at hp
  · simp only [List.mem_map] at hp
    obtain ⟨q, hq, hpq⟩ := hp
    by_cases h : q.1 = n
    · simp [h] at hpq; exact Or.inl hpq.symm
    · simp [h] at hpq; exact Or.inr (hpq ▸ hq)
  · simp only [List.mem_append, List.mem_singleton] at hp
    rcases hp with hp | hp
    · exact Or.inr hp
    · exact Or.inl hp

theorem setHook_plugins (st : PluginManager) (n : String) (hc : HookCaller) :
    (st.setHook n hc).plugins = st.plugins := by
  unfold PluginManager.setHook; split <;> rfl

theorem setHook_plugin2hookcallers (st : PluginManager) (n : String) (hc : HookCaller) :
    (st.setHook n hc).plugin2hookcallers = st.plugin2hookcallers := by
  unfold PluginManager.setHook; split <;> rfl

theorem setHook_blocked (st : PluginManager) (n : String) (hc : HookCaller) :
    (st.setHook n hc).blocked = st.blocked := by
  unfold PluginManager.setHook; split <;> rfl

theorem setHook_needs_discovery (st : PluginManager) (n : String) (hc : HookCaller) :
    (st.setHook n hc).needs_discovery = st.needs_discovery := by
  unfold PluginManager.setHook; split <;> rfl

theorem find?_map_replace (l : List (String × HookCaller)) (n : String) (hc : HookCaller)
    (h : ∃ q ∈ l, q.1 = n) :
    (l.map (fun p => if p.1 = n then (n, hc) else p)).find? (fun p => p.1 = n) =
      some (n, hc) := by
  induction l with
  | nil => simp at h
  | cons a l ih =>
    by_cases ha : a.1 = n
    · simp [List.find?_cons, ha]
    · simp only [List.map_cons, if_neg ha, List.find?_cons]
      rw [decide_eq_false ha]
      apply ih
      obtain ⟨q, hq, hq1⟩ := h
      rcases List.mem_cons.mp hq with hq | hq
      · exact absurd (hq ▸ hq1) ha
      · exact ⟨q, hq, hq1⟩

theorem find?_append_missing (l : List (String × HookCaller)) (n : String) (hc : HookCaller)
    (h : ¬ ∃ q ∈ l, q.1 = n) :
    (l ++ [(n, hc)]).find? (fun p => p.1 = n) = some (n, hc) := by
  induction l with
  | nil => simp [List.find?_cons]
  | cons a l ih =>
    have ha : ¬ a.1 = n := fun hh => h ⟨a, List.mem_cons_self a l, hh⟩
    simp only [List.cons_append, List.find?_cons]
    rw [decide_eq_false ha]
    exact ih (fun ⟨q, hq, hq1⟩ => h ⟨q, List.mem_cons_of_mem a hq, hq1⟩)

theorem getHook_setHook_self (st : PluginManager) (n : String) (hc : HookCaller) :
    (st.setHook n hc).getHook n = some hc := by
  unfold PluginManager.setHook PluginManager.getHook
  split
  · next hany =>
    simp only [List.any_eq_true, decide_eq_true_eq] at hany
    simp [find?_map_replace st.hook n hc hany]
  · next hany =>
    simp only [List.any_eq_true, decide_eq_true_eq] at hany
    simp [find?_append_missing st.hook n hc hany]

theorem verify_hook_none_subset {hc : HookCaller} {impl : HookImplementation}
    {s : HookSpecification} (hv : verify_hook hc impl = none)
    (hs : hc.spec = some s) : ∀ a ∈ impl.argnames, a ∈ s.argnames := by
  intro a ha
  unfold verify_hook at hv
  split at hv
  · exact absurd hv (by simp)
  · rw [hs] at hv
    simp only at hv
    split at hv
    · next hemp =>
      by_contra hmem
      have hin : a ∈ impl.argnames.filter (fun b => ¬ b ∈ s.argnames) :=
        List.mem_filter.mpr ⟨ha, by simpa using hmem⟩
      rw [List.isEmpty_iff] at hemp
      rw [hemp] at hin
      simp at hin
    · exact absurd hv (by simp)

theorem verifyAll_none {hc : HookCaller} {l : List HookImplementation}
    (h : verifyAll hc l = none) : ∀ i ∈ l, verify_hook hc i = none := by
  induction l with
  | nil => simp
  | cons i rest ih =>
    intro j hj
    unfold verifyAll at h
    rcases List.mem_cons.mp hj with hj | hj
    · subst hj
      cases hv : verify_hook hc j with
      | none => rfl
      | some e => rw [hv] at h; exact absurd h (by simp)
    · cases hv : verify_hook hc i with
      | none => rw [hv] at h; exact ih h j hj
      | some e => rw [hv] at h; exact absurd h (by simp)

theorem verifyAll_some {hc : HookCaller} {l : List HookImplementation} {e : PMError}
    (h : verifyAll hc l = some e) : ∃ i ∈ l, verify_hook hc i = some e := by
  induction l with
  | nil => simp [verifyAll] at h
  | cons i rest ih =>
    unfold verifyAll at h
    cases hv : verify_hook hc i with
    | none =>
        rw [hv] at h
        obtain ⟨j, hj, hje⟩ := ih h
        exact ⟨j, List.mem_cons_of_mem i hj, hje⟩
    | some e' =>
        rw [hv] at h
        cases h
        exact ⟨i, List.mem_cons_self i rest, hv⟩

theorem verifyAll_isSome_of_fail {hc : HookCaller} {l : List HookImplementation}
    {i : HookImplementation} (hi : i ∈ l) (hv : ¬ verify_hook hc i = none) :
    ∃ e, verifyAll hc l = some e := by
  cases h : verifyAll hc l with
  | some e => exact ⟨e, rfl⟩
  | none => exact absurd (verifyAll_none h i hi) hv

theorem verify_hook_shape {hc : HookCaller} {impl : HookImplementation} {e : PMError}
    (h : verify_hook hc impl = some e) :
    ∃ i r, e = PMError.validation i hc.name r := by
  unfold verify_hook at h
  by_cases h1 : (hc.is_historic && impl.hookwrapper) = true
  · rw [if_pos h1] at h; cases h; exact ⟨impl, _, rfl⟩
  · rw [if_neg h1] at h
    cases hs : hc.spec with
    | none => rw [hs] at h; exact absurd h (by simp)
    | some s =>
        rw [hs] at h
        simp only at h
        by_cases h2 : (impl.argnames.filter (fun a => ¬ a ∈ s.argnames)).isEmpty = true
        · rw [if_pos h2] at h; exact absurd h (by simp)
        · rw [if_neg h2] at h; cases h; exact ⟨impl, _, rfl⟩

theorem getHook_mem {st : PluginManager} {n : String} {hc : HookCaller}
    (h : st.getHook n = some hc) : (n, hc) ∈ st.hook := by
  unfold PluginManager.getHook at h
  cases hf : st.hook.find? (fun p => p.1 = n) with
  | none => rw [hf] at h; exact absurd h (by simp)
  | some q =>
      rw [hf] at h
      have hq1 : q.1 = n := by simpa using List.find?_some hf
      have hq2 : q.2 = hc := by simpa using h
      have hmem := List.mem_of_find?_eq_some hf
      have hqe : (n, hc) = q := by
        cases q
        simp only at hq1 hq2
        rw [hq1, hq2]
      rw [hqe]
      exact hmem

/-! ### The parameter-subset invariant (claim C1) -/

theorem specSubsetInv_init : SpecSubsetInv PluginManager.init := by
  intro p hp
  simp [PluginManager.init] at hp

theorem specSubsetInv_setHook {st : PluginManager} {n : String} {hc : HookCaller}
    (hst : SpecSubsetInv st)
    (hhc : ∀ s, hc.spec = some s → ∀ i ∈ hc.hookimpls, ∀ a ∈ i.argnames, a ∈ s.argnames) :
    SpecSubsetInv (st.setHook n hc) := by
  intro p hp s hs i hi a ha
  rcases setHook_hook_mem hp with hp | hp
  · subst hp
    exact hhc s hs i hi a ha
  · exact hst p hp s hs i hi a ha

theorem registerImpls_inv (l : List HookImplementation) :
    ∀ (st : PluginManager) (pn : String) (pid : Nat),
    SpecSubsetInv st → SpecSubsetInv (registerImpls st pn pid l).1 := by
  induction l with
  | nil => intro st pn pid h; simpa [registerImpls] using h
  | cons impl0 rest ih =>
    intro st pn pid h
    unfold registerImpls
    simp only
    split
    · -- no caller by this name yet: a fresh caller with no spec is attached
      have hinv := @specSubsetInv_setHook st impl0.specname
        ⟨impl0.specname, none, addHookimpl [] ({ impl0 with plugin := pid, plugin_name := some pn })⟩
        h (by intro s hs; exact absurd hs (by simp))
      have hrec := ih _ pn pid hinv
      split
      · next st' callers heq => rw [heq] at hrec; exact hrec
      · next st' e heq => rw [heq] at hrec; exact hrec
    · next hc hg =>
      by_cases hspec : hc.has_spec = true
      · rw [if_pos hspec]
        split
        · -- verification failed: the state is returned unchanged
          exact h
        · next hv =>
          have hhc : ∀ s, hc.spec = some s →
              ∀ i ∈ addHookimpl hc.hookimpls
                  ({ impl0 with plugin := pid, plugin_name := some pn }),
                ∀ a ∈ i.argnames, a ∈ s.argnames := by
            intro s hs i hi a ha
            rcases mem_addHookimpl hi with hi | hi
            · subst hi
              exact verify_hook_none_subset hv hs a ha
            · exact h (impl0.specname, hc) (getHook_mem hg) s hs i hi a ha
          have hinv := @specSubsetInv_setHook st impl0.specname
            ⟨hc.name, hc.spec,
              addHookimpl hc.hookimpls ({ impl0 with plugin := pid, plugin_name := some pn })⟩
            h hhc
          have hrec := ih _ pn pid hinv
          split
          · next st' callers heq => rw [heq] at hrec; exact hrec
          · next st' e heq => rw [heq] at hrec; exact hrec
      · rw [if_neg hspec]
        have hsn : hc.spec = none := by
          unfold HookCaller.has_spec at hspec
          cases hcs : hc.spec with
          | none => rfl
          | some s => rw [hcs] at hspec; simp at hspec
        have hhc : ∀ s, hc.spec = some s →
            ∀ i ∈ addHookimpl hc.hookimpls
                ({ impl0 with plugin := pid, plugin_name := some pn }),
              ∀ a ∈ i.argnames, a ∈ s.argnames := by
          intro s hs
          rw [hsn] at hs
          exact absurd hs (by simp)
        have hinv := @specSubsetInv_setHook st impl0.specname
          ⟨hc.name, hc.spec,
            addHookimpl hc.hookimpls ({ impl0 with plugin := pid, plugin_name := some pn })⟩
          h hhc
        have hrec := ih _ pn pid hinv
        split
        · next st' callers heq => rw [heq] at hrec; exact hrec
        · next st' e heq => rw [heq] at hrec; exact hrec

theorem register_inv (st : PluginManager) (ns : PluginNamespace) (nm : Option String)
    (h : SpecSubsetInv st) : SpecSubsetInv (st.register ns nm).1 := by
  unfold PluginManager.register
  simp only
  split
  · exact h
  · split
    · exact h
    · split
      · exact h
      · have hrec := registerImpls_inv ns.impls st (nm.getD ns.canonical) ns.id h
        split
        · next st' e heq => rw [heq] at hrec; exact hrec
        · next st' callers heq => rw [heq] at hrec; exact hrec

theorem addHookspecsLoop_inv (specs : List (String × HookSpecification)) :
    ∀ (st st' : PluginManager) (names : List String),
    addHookspecsLoop st specs = (st', .ok names) → SpecSubsetInv st → SpecSubsetInv st' := by
  induction specs with
  | nil =>
    intro st st' names heq h
    unfold addHookspecsLoop at heq
    cases heq
    exact h
  | cons p rest ih =>
    intro st st' names heq h
    obtain ⟨n, sp⟩ := p
    unfold addHookspecsLoop at heq
    simp only at heq
    split at heq
    · -- fresh caller carrying the spec, with no implementations yet
      split at heq
      · next st2 names2 heq2 =>
          cases heq
          exact ih _ _ _ heq2 (@specSubsetInv_setHook st n ⟨n, some sp, []⟩ h
            (by intro s hs i hi; exact absurd hi (by simp)))
      · next st2 e heq2 => cases heq
    · next hc hg =>
      split at heq
      · cases heq
      · next hva =>
        split at heq
        · next st2 names2 heq2 =>
            cases heq
            apply ih _ _ _ heq2
            apply @specSubsetInv_setHook st n ⟨hc.name, some sp, hc.hookimpls⟩ h
            intro s hs i hi a ha
            have hs' : some sp = some s := hs
            cases hs'
            exact verify_hook_none_subset (verifyAll_none hva i hi) rfl a ha
        · next st2 e heq2 => cases heq

theorem add_hookspecs_inv (st : PluginManager) (ns : SpecNamespace)
    (h : SpecSubsetInv st) (hok : (st.add_hookspecs ns).2 = none) :
    SpecSubsetInv (st.add_hookspecs ns).1 := by
  unfold PluginManager.add_hookspecs at *
  cases heq : addHookspecsLoop st ns.specs with
  | mk st1 res =>
    cases res with
    | error e =>
      rw [heq] at hok
      simp at hok
    | ok names =>
      have hinv := addHookspecsLoop_inv ns.specs st st1 names heq h
      simp only
      split <;> exact hinv

theorem unregister_inv (st : PluginManager) (n : String) (h : SpecSubsetInv st) :
    SpecSubsetInv (st.unregister n).1 := by
  unfold PluginManager.unregister
  split
  · exact h
  · next p hp =>
    intro q hq s hs i hi a ha
    simp only [List.mem_map] at hq
    obtain ⟨r, hr, hrq⟩ := hq
    by_cases hcall :
        ((((st.plugin2hookcallers.find? (fun q => q.1 = p.2)).map (fun q => q.2)).getD
          []).contains r.1) = true
    · rw [if_pos hcall] at hrq
      subst hrq
      simp only [HookCaller.remove_plugin] at hs hi
      have hi' := List.mem_filter.mp hi
      exact h r hr s hs i hi'.1 a ha
    · rw [if_neg hcall] at hrq
      subst hrq
      exact h r hr s hs i hi a ha

theorem specSubsetInv_of_hook_eq {st st' : PluginManager} (hh : st'.hook = st.hook)
    (h : SpecSubsetInv st) : SpecSubsetInv st' := by
  intro p hp
  rw [hh] at hp
  exact h p hp

theorem addBlocked_hook (st : PluginManager) (n : String) :
    (st.addBlocked n).hook = st.hook := rfl

theorem set_blocked_inv (st : PluginManager) (n : String) (b : Bool)
    (h : SpecSubsetInv st) : SpecSubsetInv (st.set_blocked n b) := by
  unfold PluginManager.set_blocked
  split
  · split
    · exact unregister_inv _ n (specSubsetInv_of_hook_eq (addBlocked_hook st n) h)
    · exact specSubsetInv_of_hook_eq (addBlocked_hook st n) h
  · exact specSubsetInv_of_hook_eq rfl h

/-! ### Reachability through the public operations -/

theorem pmStep_inv {st st' : PluginManager} (hstep : PMStep st st')
    (h : SpecSubsetInv st) : SpecSubsetInv st' := by
  cases hstep with
  | register ns nm r hr => exact register_inv _ ns nm h
  | add_hookspecs ns hok => exact add_hookspecs_inv _ ns h hok
  | unregister n => exact unregister_inv _ n h
  | set_blocked n b => exact set_blocked_inv _ n b h

/-! ### Claim theorems -/

/-- C1: in every registry state reachable from a fresh manager through the
public operations (`register`, `add_hookspecs`, `unregister`, `set_blocked`)
completing without raising, every implementation attached to a hook caller
with a bound specification has a parameter-name set contained in the
specification's parameter-name set.  A caller with no bound specification
contributes nothing to the invariant (the check is deferred), and the
`add_hookspecs` step only completes once every already-attached
implementation has been retroactively verified, which is what preserves the
invariant at late-binding time. -/
theorem claim1_spec_subset_invariant (st : PluginManager) (h : PMReachable st) :
    SpecSubsetInv st := by
  induction h with
  | refl => exact specSubsetInv_init
  | tail _ hstep ih => exact pmStep_inv hstep ih

theorem claim1_witness :
    PMReachable claim1WitnessState ∧ SpecSubsetInv claim1WitnessState := by
  have h1 : PMStep PluginManager.init (PluginManager.init.register claim1Ns none).1 :=
    PMStep.register _ claim1Ns none (some "p1") (by rfl)
  have h2 : PMStep (PluginManager.init.register claim1Ns none).1 claim1WitnessState :=
    PMStep.add_hookspecs _ claim1Specs (by rfl)
  have hre : PMReachable claim1WitnessState :=
    Relation.ReflTransGen.tail (Relation.ReflTransGen.single h1) h2
  exact ⟨hre, claim1_spec_subset_invariant _ hre⟩

/-- C2: for a non-blocked canonical name, `register` raises `ValueError`
synchronously when that name is already registered (in particular when it is
registered under a different object) and, the name being fresh, when the same
namespace object is already registered under any name; in both cases the
returned state is exactly the input state, so no plugin is recorded and no
hook caller is created or modified. -/
theorem claim2_duplicate_registration (st : PluginManager) (ns : PluginNamespace)
    (nm : Option String) (hb : st.is_blocked (nm.getD ns.canonical) = false) :
    (st.is_registered_name (nm.getD ns.canonical) = true →
      st.register ns nm = (st, .error (.dupName (nm.getD ns.canonical)))) ∧
    (st.is_registered_name (nm.getD ns.canonical) = false →
      st.is_registered_module ns.id = true →
      st.register ns nm = (st, .error (.dupModule ns.id))) := by
  constructor
  · intro h1
    unfold PluginManager.register
    simp only
    rw [if_neg (by simp [hb]), if_pos h1]
  · intro h1 h2
    unfold PluginManager.register
    simp only
    rw [if_neg (by simp [hb]), if_neg (by simp [h1]), if_pos h2]

theorem claim2_witness :
    (claim2St.register ⟨2, "p1", []⟩ none = (claim2St, .error (.dupName "p1"))) ∧
    (claim2St.register ⟨1, "other", []⟩ none = (claim2St, .error (.dupModule 1))) := by
  constructor
  · exact (claim2_duplicate_registration claim2St ⟨2, "p1", []⟩ none (by rfl)).1 (by rfl)
  · exact (claim2_duplicate_registration claim2St ⟨1, "other", []⟩ none (by rfl)).2
      (by rfl) (by rfl)

theorem verifyAll_none_of_all {hc : HookCaller} {l : List HookImplementation}
    (h : ∀ i ∈ l, verify_hook hc i = none) : verifyAll hc l = none := by
  induction l with
  | nil => rfl
  | cons i rest ih =>
    unfold verifyAll
    rw [h i (List.mem_cons_self i rest)]
    exact ih (fun j hj => h j (List.mem_cons_of_mem i hj))

theorem verify_hook_fail_of_missing {hc : HookCaller} {s : HookSpecification}
    {i : HookImplementation} (hs : hc.spec = some s)
    (hbad : ∃ a ∈ i.argnames, ¬ a ∈ s.argnames) : ¬ verify_hook hc i = none := by
  intro hnone
  obtain ⟨a, ha, hna⟩ := hbad
  exact hna (verify_hook_none_subset hnone hs a ha)

/-- C3: calling `add_hookspecs` for a hook name that already has a caller
with implementations but no specification binds the specification to that
existing caller (keeping every attached implementation), and the bind
re-verifies every already-attached implementation: if some implementation
declares a parameter absent from the specification's parameter set the call
raises a `PluginValidationError` right there (bind time — no hook call is
involved), while if every implementation verifies the call returns normally. -/
theorem claim3_late_spec_binding (st : PluginManager) (n : String)
    (hc : HookCaller) (sp : HookSpecification)
    (hg : st.getHook n = some hc) (hnone : hc.spec = none) (hname : hc.name = n) :
    ((st.add_hookspecs ⟨[(n, sp)]⟩).1.getHook n = some { hc with spec := some sp }) ∧
    ((∃ i ∈ hc.hookimpls, ∃ a ∈ i.argnames, ¬ a ∈ sp.argnames) →
      ∃ i r, (st.add_hookspecs ⟨[(n, sp)]⟩).2 = some (PMError.validation i n r)) ∧
    ((∀ i ∈ hc.hookimpls, verify_hook { hc with spec := some sp } i = none) →
      (st.add_hookspecs ⟨[(n, sp)]⟩).2 = none) := by
  have key : st.add_hookspecs ⟨[(n, sp)]⟩ =
      (match verifyAll { hc with spec := some sp } hc.hookimpls with
       | some e => (st.setHook n { hc with spec := some sp }, some e)
       | none => (st.setHook n { hc with spec := some sp }, none)) := by
    unfold PluginManager.add_hookspecs addHookspecsLoop
    simp only [hg]
    cases hva : verifyAll { hc with spec := some sp } hc.hookimpls <;>
      simp [addHookspecsLoop, hva]
  refine ⟨?_, ?_, ?_⟩
  · rw [key]
    cases hva : verifyAll { hc with spec := some sp } hc.hookimpls <;>
      simp [hva, getHook_setHook_self]
  · rintro ⟨i, hi, hbad⟩
    have hfail : ¬ verify_hook { hc with spec := some sp } i = none :=
      @verify_hook_fail_of_missing { hc with spec := some sp } sp i rfl hbad
    obtain ⟨e, he⟩ :=
      @verifyAll_isSome_of_fail { hc with spec := some sp } hc.hookimpls i hi hfail
    obtain ⟨j, hj, hje⟩ := verifyAll_some he
    obtain ⟨i', r, hr⟩ := verify_hook_shape hje
    refine ⟨i', r, ?_⟩
    rw [key, he]
    simp only
    rw [hr]
    simp [hname]
  · intro hall
    have hva : verifyAll { hc with spec := some sp } hc.hookimpls = none :=
      verifyAll_none_of_all hall
    rw [key, hva]

theorem addBlocked_plugins (st : PluginManager) (n : String) :
    (st.addBlocked n).plugins = st.plugins := rfl

theorem addBlocked_contains (st : PluginManager) (n : String) :
    (st.addBlocked n).blocked.contains n = true := by
  by_cases hcn : n ∈ st.blocked <;> simp [PluginManager.addBlocked, hcn]

theorem unregister_blocked (st : PluginManager) (n : String) :
    (st.unregister n).1.blocked = st.blocked := by
  unfold PluginManager.unregister
  split <;> rfl

theorem unregister_removes (st : PluginManager) (n : String)
    (hvals : (st.plugins.map Prod.snd).Nodup) :
    (st.unregister n).1.is_registered_name n = false := by
  unfold PluginManager.unregister
  cases hf : st.plugins.find? (fun p => p.1 = n) with
  | none =>
      simp only [hf]
      unfold PluginManager.is_registered_name
      rw [List.find?_eq_none] at hf
      rw [← Bool.not_eq_true]
      simp only [List.any_eq_true, decide_eq_true_eq]
      rintro ⟨x, hx, hx1⟩
      exact absurd (by simpa using hx1) (by simpa using hf x hx)
  | some p =>
      simp only [hf]
      have hp1 : p.1 = n := by simpa using List.find?_some hf
      have hpmem := List.mem_of_find?_eq_some hf
      have hdel : ((st.get_name p.2).getD n) = n := by
        unfold PluginManager.get_name
        cases hf2 : st.plugins.find? (fun q => q.2 = p.2) with
        | none => rfl
        | some q =>
            have hq2 : q.2 = p.2 := by simpa using List.find?_some hf2
            have hqmem := List.mem_of_find?_eq_some hf2
            have hqp : q = p := List.inj_on_of_nodup_map hvals hqmem hpmem hq2
            simp [hqp, hp1]
      rw [hdel]
      unfold PluginManager.is_registered_name
      simp [List.any_eq_true, List.mem_filter]

theorem set_blocked_true_eq (st : PluginManager) (n : String) :
    st.set_blocked n true =
      (if (st.addBlocked n).is_registered_name n = true
        then ((st.addBlocked n).unregister n).1 else st.addBlocked n) := by
  unfold PluginManager.set_blocked
  rw [if_pos rfl]

theorem set_blocked_contains (st : PluginManager) (n : String) :
    (st.set_blocked n true).is_blocked n = true := by
  rw [set_blocked_true_eq]
  by_cases hr : (st.addBlocked n).is_registered_name n = true
  · rw [if_pos hr]
    unfold PluginManager.is_blocked
    rw [unregister_blocked]
    exact addBlocked_contains st n
  · rw [if_neg hr]
    exact addBlocked_contains st n

theorem set_blocked_unregisters (st : PluginManager) (n : String)
    (hvals : (st.plugins.map Prod.snd).Nodup) :
    (st.set_blocked n true).is_registered_name n = false := by
  rw [set_blocked_true_eq]
  by_cases hr : (st.addBlocked n).is_registered_name n = true
  · rw [if_pos hr]
    exact unregister_removes (st.addBlocked n) n (by rw [addBlocked_plugins]; exact hvals)
  · rw [if_neg hr]
    simpa using hr

/-- C4: `set_blocked(name)` puts the name on the blocklist and leaves it
unregistered (unregistering it when it was registered); while the name is
blocked, `register` under it is a silent no-op returning no canonical name
and changing nothing; `set_blocked(name, False)` unblocks; repeating
`set_blocked(name)` on the already-blocked name leaves the whole registry
state unchanged.  The hypothesis states that the plugin table maps distinct
names to distinct objects, which `register`'s duplicate-identity check
guarantees for every reachable state. -/
theorem claim4_set_blocked (st : PluginManager) (n : String) (ns : PluginNamespace)
    (hvals : (st.plugins.map Prod.snd).Nodup) :
    ((st.set_blocked n true).is_blocked n = true) ∧
    ((st.set_blocked n true).is_registered_name n = false) ∧
    ((st.set_blocked n true).register ns (some n) = (st.set_blocked n true, .ok none)) ∧
    (((st.set_blocked n true).set_blocked n false).is_blocked n = false) ∧
    ((st.set_blocked n true).set_blocked n true = st.set_blocked n true) := by
  have ha := set_blocked_contains st n
  have hb := set_blocked_unregisters st n hvals
  refine ⟨ha, hb, ?_, ?_, ?_⟩
  · unfold PluginManager.register
    simp only [Option.getD_some]
    rw [if_pos ha]
  · unfold PluginManager.set_blocked
    rw [if_neg (by simp)]
    unfold PluginManager.is_blocked
    simp
  · have haB : (st.set_blocked n true).addBlocked n = st.set_blocked n true := by
      unfold PluginManager.addBlocked
      rw [if_pos (by unfold PluginManager.is_blocked at ha; exact ha)]
    rw [set_blocked_true_eq (st.set_blocked n true) n, haB, if_neg (by simp [hb])]

theorem claim3_witness :
    ((claim3St.add_hookspecs ⟨[("h", ⟨[], false, false⟩)]⟩).1.getHook "h" =
      some { claim3Hc with spec := some ⟨[], false, false⟩ }) ∧
    (∃ i r, (claim3St.add_hookspecs ⟨[("h", ⟨[], false, false⟩)]⟩).2 =
      some (PMError.validation i "h" r)) := by
  have h := claim3_late_spec_binding claim3St "h" claim3Hc ⟨[], false, false⟩ rfl rfl rfl
  refine ⟨h.1, h.2.1 ?_⟩
  exact ⟨⟨1, some "p1", "h", ["x"], false, false, .neutral⟩, by simp [claim3Hc],
    "x", by simp, by simp⟩

theorem claim4_witness :
    ((claim4St.set_blocked "p1" true).is_blocked "p1" = true) ∧
    ((claim4St.set_blocked "p1" true).is_registered_name "p1" = false) ∧
    ((claim4St.set_blocked "p1" true).register ⟨2, "q", []⟩ (some "p1") =
      (claim4St.set_blocked "p1" true, .ok none)) ∧
    (((claim4St.set_blocked "p1" true).set_blocked "p1" false).is_blocked "p1" = false) ∧
    ((claim4St.set_blocked "p1" true).set_blocked "p1" true =
      claim4St.set_blocked "p1" true) :=
  claim4_set_blocked claim4St "p1" ⟨2, "q", []⟩ (by decide)

theorem verify_hook_historic_wrapper {hc : HookCaller} {impl : HookImplementation}
    (hh : hc.is_historic = true) (hw : impl.hookwrapper = true) :
    verify_hook hc impl = some (.validation impl hc.name .historicHookwrapper) := by
  unfold verify_hook
  rw [if_pos (by simp [hh, hw])]

/-- C5: a historic hook caller rejects wrapper-flagged implementations on
both paths: `register` of a namespace contributing a hookwrapper for a hook
whose bound specification is historic raises `PluginValidationError` before
anything is attached, and `add_hookspecs` binding a historic specification
over a caller that already holds a hookwrapper implementation raises
`PluginValidationError` at bind time. -/
theorem claim5_historic_rejects_hookwrapper
    (st : PluginManager) (n : String) (hc : HookCaller) (sp : HookSpecification)
    (impl : HookImplementation) (nm : Option String) (ns : PluginNamespace) :
    (ns.impls = [impl] → impl.specname = n → impl.hookwrapper = true →
      st.getHook n = some hc → hc.spec = some sp → sp.historic = true →
      st.is_blocked (nm.getD ns.canonical) = false →
      st.is_registered_name (nm.getD ns.canonical) = false →
      st.is_registered_module ns.id = false →
      st.register ns nm =
        (st, .error (.validation
          { impl with plugin := ns.id, plugin_name := some (nm.getD ns.canonical) }
          hc.name .historicHookwrapper))) ∧
    (st.getHook n = some hc → hc.spec = none → hc.name = n → impl ∈ hc.hookimpls →
      impl.hookwrapper = true → sp.historic = true →
      ∃ i r, (st.add_hookspecs ⟨[(n, sp)]⟩).2 = some (PMError.validation i n r)) := by
  constructor
  · intro hil hin hw hg hcs hh hbl hrn hrm
    subst hin
    unfold PluginManager.register
    simp only
    rw [if_neg (by simp [hbl]), if_neg (by simp [hrn]), if_neg (by simp [hrm]), hil]
    unfold registerImpls
    simp only [hg]
    have hhist : hc.is_historic = true := by
      unfold HookCaller.is_historic
      rw [hcs]
      exact hh
    rw [if_pos (by unfold HookCaller.has_spec; rw [hcs]; rfl)]
    rw [@verify_hook_historic_wrapper hc
      { impl with plugin := ns.id, plugin_name := some (nm.getD ns.canonical) } hhist hw]
  · intro hg hcs hname him hw hh
    have hhist : ({ hc with spec := some sp } : HookCaller).is_historic = true := by
      unfold HookCaller.is_historic
      exact hh
    have hfail : ¬ verify_hook { hc with spec := some sp } impl = none := by
      rw [@verify_hook_historic_wrapper { hc with spec := some sp } impl hhist hw]
      simp
    have key : st.add_hookspecs ⟨[(n, sp)]⟩ =
        (match verifyAll { hc with spec := some sp } hc.hookimpls with
         | some e => (st.setHook n { hc with spec := some sp }, some e)
         | none => (st.setHook n { hc with spec := some sp }, none)) := by
      unfold PluginManager.add_hookspecs addHookspecsLoop
      simp only [hg]
      cases hva : verifyAll { hc with spec := some sp } hc.hookimpls <;>
        simp [addHookspecsLoop, hva]
    obtain ⟨e, he⟩ :=
      @verifyAll_isSome_of_fail { hc with spec := some sp } hc.hookimpls impl him hfail
    obtain ⟨j, hj, hje⟩ := verifyAll_some he
    obtain ⟨i', r, hr⟩ := verify_hook_shape hje
    refine ⟨i', r, ?_⟩
    rw [key, he]
    simp only
    rw [hr]
    simp [hname]

theorem claim5_witness :
    (claim5StA.register claim5Ns none =
      (claim5StA, .error (.validation ⟨1, some "p", "h", ["x"], true, false, .neutral⟩
        "h" .historicHookwrapper))) ∧
    (∃ i r, (claim5StB.add_hookspecs ⟨[("h", claim5Sp)]⟩).2 =
      some (PMError.validation i "h" r)) := by
  have hA := claim5_historic_rejects_hookwrapper claim5StA "h"
    ⟨"h", some claim5Sp, []⟩ claim5Sp claim5Impl none claim5Ns
  have hB := claim5_historic_rejects_hookwrapper claim5StB "h" claim5HcB claim5Sp
    ⟨1, some "p", "h", ["x"], true, false, .neutral⟩ none claim5Ns
  constructor
  · exact hA.1 rfl rfl rfl (by rfl) rfl rfl (by rfl) (by rfl) (by rfl)
  · exact hB.2 (by rfl) rfl rfl (by simp [claim5HcB]) rfl rfl

theorem loadEpsLoop_isOk (eps : List EntryPointCandidate) :
    ∀ (st : PluginManager) (g nm : String),
    ∃ st' c errs, loadEntrypointsLoop st g nm true eps = (st', .ok (c, errs)) := by
  induction eps with
  | nil => intro st g nm; exact ⟨st, 0, [], rfl⟩
  | cons ep rest ih =>
    intro st g nm
    unfold loadEntrypointsLoop
    by_cases hskip : (¬ ep.group = g ∨ (¬ nm = "" ∧ ¬ ep.name = nm) ∨
        st.is_registered_name ep.name = true ∨ st.is_blocked ep.name = true)
    · rw [if_pos hskip]
      exact ih st g nm
    · rw [if_neg hskip]
      cases hlr : load_and_register st ep.load (some ep.name) with
      | mk st1 res =>
        cases res with
        | ok r =>
            obtain ⟨st', c, errs, hrec⟩ := ih st1 g nm
            dsimp only
            rw [hrec]
            exact ⟨st', _, errs, rfl⟩
        | error e1 =>
            obtain ⟨st', c, errs, hrec⟩ := ih (st1.set_blocked ep.name true) g nm
            dsimp only
            rw [hrec]
            exact ⟨st', c, e1 :: errs, rfl⟩

theorem loadModsLoop_isOk (mods : List ModuleCandidate) :
    ∀ (st : PluginManager) (pfx : String),
    ∃ st' c errs, loadModulesLoop st pfx true mods = (st', .ok (c, errs)) := by
  induction mods with
  | nil => intro st pfx; exact ⟨st, 0, [], rfl⟩
  | cons m rest ih =>
    intro st pfx
    unfold loadModulesLoop
    by_cases hpf : strStartsWith m.mod_name pfx = true
    · rw [if_neg (by simp [hpf])]
      by_cases hskip : (st.is_registered_name (m.dist_name.getD m.mod_name) = true ∨
          st.is_blocked (m.dist_name.getD m.mod_name) = true)
      · rw [if_pos hskip]
        exact ih st pfx
      · rw [if_neg hskip]
        cases hlr : load_and_register st m.load (some (m.dist_name.getD m.mod_name)) with
        | mk st1 res =>
          cases res with
          | ok r =>
              obtain ⟨st', c, errs, hrec⟩ := ih st1 pfx
              dsimp only
              rw [hrec]
              exact ⟨st', _, errs, rfl⟩
          | error e1 =>
              obtain ⟨st', c, errs, hrec⟩ :=
                ih (st1.set_blocked (m.dist_name.getD m.mod_name) true) pfx
              dsimp only
              rw [hrec]
              exact ⟨st', c, e1 :: errs, rfl⟩
    · rw [if_pos (by simpa using hpf)]
      exact ih st pfx

/-- C6: during batch loading (entry points or module naming convention),
with `ignore_errors` (the default) a candidate whose load raises a
`PluginError` contributes its error to the returned list while loading
continues over the remaining candidates from the state in which the failing
name has been blocked; with `ignore_errors = False` the first error is
raised immediately (the remaining candidates untouched); in both modes the
failing candidate's name is blocked, and a loading pass skips any candidate
whose name is already blocked. -/
theorem claim6_discovery_error_collection
    (st : PluginManager) (g pfx : String) (hgne : ¬ g = "") (hpne : ¬ pfx = "")
    (ep : EntryPointCandidate) (rest : List EntryPointCandidate)
    (m : ModuleCandidate) (mrest : List ModuleCandidate) :
    (ep.group = g → ep.load = none →
      st.is_registered_name ep.name = false → st.is_blocked ep.name = false →
      (∃ st' c errs,
        (st.set_blocked ep.name true).load_entrypoints false rest g "" true =
          (st', .ok (c, errs)) ∧
        st.load_entrypoints false (ep :: rest) g "" true =
          (st', .ok (c, PMError.importError (some ep.name) :: errs))) ∧
      st.load_entrypoints false (ep :: rest) g "" false =
        (st.set_blocked ep.name true, .error (.importError (some ep.name)))) ∧
    (st.is_blocked ep.name = true → ∀ ig,
      st.load_entrypoints false (ep :: rest) g "" ig =
        st.load_entrypoints false rest g "" ig) ∧
    (strStartsWith m.mod_name pfx = true → m.load = none →
      st.is_registered_name (m.dist_name.getD m.mod_name) = false →
      st.is_blocked (m.dist_name.getD m.mod_name) = false →
      (∃ st' c errs,
        (st.set_blocked (m.dist_name.getD m.mod_name) true).load_prefixed_modules
            false mrest pfx true = (st', .ok (c, errs)) ∧
        st.load_prefixed_modules false (m :: mrest) pfx true =
          (st', .ok (c, PMError.importError (some (m.dist_name.getD m.mod_name)) :: errs))) ∧
      st.load_prefixed_modules false (m :: mrest) pfx false =
        (st.set_blocked (m.dist_name.getD m.mod_name) true,
          .error (.importError (some (m.dist_name.getD m.mod_name))))) ∧
    (st.is_blocked (m.dist_name.getD m.mod_name) = true →
      strStartsWith m.mod_name pfx = true → ∀ ig,
      st.load_prefixed_modules false (m :: mrest) pfx ig =
        st.load_prefixed_modules false mrest pfx ig) := by
  refine ⟨?_, ?_, ?_, ?_⟩
  · intro hgrp hload hreg hblk
    have hns : ¬ (¬ ep.group = g ∨ (¬ ("" : String) = "" ∧ ¬ ep.name = "") ∨
        st.is_registered_name ep.name = true ∨ st.is_blocked ep.name = true) := by
      simp [hgrp, hreg, hblk]
    constructor
    · obtain ⟨st', c, errs, hrec⟩ := loadEpsLoop_isOk rest (st.set_blocked ep.name true) g ""
      refine ⟨st', c, errs, ?_, ?_⟩
      · unfold PluginManager.load_entrypoints
        rw [if_neg (by simp [hgne])]
        exact hrec
      · unfold PluginManager.load_entrypoints
        rw [if_neg (by simp [hgne])]
        unfold loadEntrypointsLoop
        rw [if_neg hns, hload]
        unfold load_and_register
        dsimp only
        rw [hrec]
        rfl
    · unfold PluginManager.load_entrypoints
      rw [if_neg (by simp [hgne])]
      unfold loadEntrypointsLoop
      rw [if_neg hns, hload]
      unfold load_and_register
      dsimp only
      rfl
  · intro hblk ig
    unfold PluginManager.load_entrypoints
    rw [if_neg (by simp [hgne]), if_neg (by simp [hgne])]
    conv_lhs => unfold loadEntrypointsLoop
    rw [if_pos (by simp [hblk])]
  · intro hpf hload hreg hblk
    have hns : ¬ (st.is_registered_name (m.dist_name.getD m.mod_name) = true ∨
        st.is_blocked (m.dist_name.getD m.mod_name) = true) := by
      simp [hreg, hblk]
    constructor
    · obtain ⟨st', c, errs, hrec⟩ :=
        loadModsLoop_isOk mrest (st.set_blocked (m.dist_name.getD m.mod_name) true) pfx
      refine ⟨st', c, errs, ?_, ?_⟩
      · unfold PluginManager.load_prefixed_modules
        rw [if_neg (by simp [hpne])]
        exact hrec
      · unfold PluginManager.load_prefixed_modules
        rw [if_neg (by simp [hpne])]
        unfold loadModulesLoop
        rw [if_neg (by simp [hpf]), if_neg hns, hload]
        unfold load_and_register
        dsimp only
        rw [hrec]
        rfl
    · unfold PluginManager.load_prefixed_modules
      rw [if_neg (by simp [hpne])]
      unfold loadModulesLoop
      rw [if_neg (by simp [hpf]), if_neg hns, hload]
      unfold load_and_register
      dsimp only
      rfl
  · intro hblk hpf ig
    unfold PluginManager.load_prefixed_modules
    rw [if_neg (by simp [hpne]), if_neg (by simp [hpne])]
    conv_lhs => unfold loadModulesLoop
    rw [if_neg (by simp [hpf]), if_pos (by simp [hblk])]

theorem claim6_witness :
    ((∃ st' c errs,
        (PluginManager.init.set_blocked "cand" true).load_entrypoints false [] "g" "" true =
          (st', .ok (c, errs)) ∧
        PluginManager.init.load_entrypoints false [claim6Ep] "g" "" true =
          (st', .ok (c, PMError.importError (some "cand") :: errs))) ∧
      PluginManager.init.load_entrypoints false [claim6Ep] "g" "" false =
        (PluginManager.init.set_blocked "cand" true, .error (.importError (some "cand")))) ∧
    ((∃ st' c errs,
        (PluginManager.init.set_blocked "xdist" true).load_prefixed_modules false [] "app_" true =
          (st', .ok (c, errs)) ∧
        PluginManager.init.load_prefixed_modules false [claim6Mod] "app_" true =
          (st', .ok (c, PMError.importError (some "xdist") :: errs))) ∧
      PluginManager.init.load_prefixed_modules false [claim6Mod] "app_" false =
        (PluginManager.init.set_blocked "xdist" true, .error (.importError (some "xdist")))) ∧
    (claim6StB.load_entrypoints false [claim6Ep] "g" "" true =
      claim6StB.load_entrypoints false [] "g" "" true) ∧
    (claim6StB.load_prefixed_modules false [claim6Mod] "app_" true =
      claim6StB.load_prefixed_modules false [] "app_" true) := by
  have h := claim6_discovery_error_collection PluginManager.init "g" "app_"
    (by decide) (by decide) claim6Ep [] claim6Mod []
  have h2 := claim6_discovery_error_collection claim6StB "g" "app_"
    (by decide) (by decide) claim6Ep [] claim6Mod []
  exact ⟨h.1 rfl rfl rfl rfl, h.2.2.1 (by decide) rfl rfl rfl,
    h2.2.1 rfl true, h2.2.2.2 rfl (by decide) true⟩

/-- C7 counterexample: a plain name-to-callable mapping whose only key is
not a valid identifier registers without any error — its callable value is
not a Python function, so `_register_dict` silently drops the entry and
`ensure_namespace` never examines the invalid key; the resulting orphan
namespace is then registered successfully.  This refutes the claim as
stated, that such a mapping is rejected with an error. -/
theorem claim7_counterexample :
    (∀ kv ∈ claim7Dct, kv.2.callable = true) ∧
    (∃ kv ∈ claim7Dct, ¬ isPyIdentifier kv.1 = true) ∧
    (PluginManager.init.register_dict claim7Dct none 7).2 = .ok (some "orphan") ∧
    (PluginManager.init.register_dict claim7Dct none 7).1.is_registered_name "orphan"
      = true := by
  refine ⟨by decide, ⟨("bad key", ⟨true, false, []⟩), by decide, by decide⟩, rfl, rfl⟩

/-- C7 (amended): registering a plain name-to-callable mapping is rejected
with `ValueError` (the state untouched) when some key surviving the
`isfunction` filter is not a valid identifier — equivalently, when every
value is a Python function (`inspect.isfunction`), any invalid key is
rejected.  Entries whose values are callable without being functions are
dropped by `_register_dict` before `ensure_namespace` examines the keys
(see the counterexample to the unamended claim). -/
theorem claim7_dict_invalid_identifiers (st : PluginManager)
    (dct : List (String × DictValue)) (nm : Option String) (freshId : Nat)
    (hfn : ∀ kv ∈ dct, kv.2.isfunction = true)
    (hbad : ∃ kv ∈ dct, ¬ isPyIdentifier kv.1 = true) :
    ∃ bad, st.register_dict dct nm freshId = (st, .error (.invalidIdentifiers bad)) ∧
      ¬ bad = [] := by
  unfold PluginManager.register_dict
  have hclean : dct.filter (fun kv => kv.2.isfunction) = dct := by
    apply List.filter_eq_self.mpr
    intro kv hkv
    exact hfn kv hkv
  rw [hclean]
  obtain ⟨kv, hkv, hkvbad⟩ := hbad
  have hmem : kv.1 ∈ (dct.map (fun kv => kv.1)).filter (fun k => ¬ isPyIdentifier k = true) := by
    apply List.mem_filter.mpr
    exact ⟨List.mem_map_of_mem _ hkv, by simpa using hkvbad⟩
  have hne : ¬ ((dct.map (fun kv => kv.1)).filter (fun k => ¬ isPyIdentifier k = true)) = [] := by
    intro hnil
    rw [hnil] at hmem
    simp at hmem
  refine ⟨_, ?_, hne⟩
  rw [if_neg (by simpa using hne)]

theorem claim7_witness :
    ∃ bad, PluginManager.init.register_dict [("bad key", ⟨true, true, ["x"]⟩)] none 7 =
      (PluginManager.init, .error (.invalidIdentifiers bad)) ∧ ¬ bad = [] := by
  apply claim7_dict_invalid_identifiers
  · intro kv hkv
    simp only [List.mem_singleton] at hkv
    rw [hkv]
  · exact ⟨("bad key", ⟨true, true, ["x"]⟩), by simp, by decide⟩

theorem checkPendingLoop_isSome (l : List (String × HookCaller)) :
    (checkPendingLoop l).isSome = true ↔
      ∃ p ∈ l, strStartsWith p.1 "_" = false ∧ p.2.spec = none ∧
        ∃ i ∈ p.2.hookimpls, i.optionalhook = false := by
  induction l with
  | nil => simp [checkPendingLoop]
  | cons p rest ih =>
    obtain ⟨n, hc⟩ := p
    unfold checkPendingLoop
    by_cases hu : strStartsWith n "_" = true
    · rw [if_pos hu, ih]
      constructor
      · rintro ⟨q, hq, hqs⟩
        exact ⟨q, List.mem_cons_of_mem _ hq, hqs⟩
      · rintro ⟨q, hq, hq1, hq2⟩
        rcases List.mem_cons.mp hq with hq | hq
        · subst hq
          exact absurd hu (by simp_all)
        · exact ⟨q, hq, hq1, hq2⟩
    · rw [if_neg hu]
      by_cases hs : hc.has_spec = true
      · rw [if_pos hs, ih]
        have hspec : ¬ hc.spec = none := by
          unfold HookCaller.has_spec at hs
          intro hn
          rw [hn] at hs
          simp at hs
        constructor
        · rintro ⟨q, hq, hqs⟩
          exact ⟨q, List.mem_cons_of_mem _ hq, hqs⟩
        · rintro ⟨q, hq, hq1, hq2, hq3⟩
          rcases List.mem_cons.mp hq with hq | hq
          · subst hq
            exact absurd hq2 hspec
          · exact ⟨q, hq, hq1, hq2, hq3⟩
      · rw [if_neg hs]
        have hspec : hc.spec = none := by
          unfold HookCaller.has_spec at hs
          cases hcs : hc.spec with
          | none => rfl
          | some s => rw [hcs] at hs; simp at hs
        cases hf : hc.get_hookimpls.find? (fun i => ¬ i.optionalhook = true) with
        | some i =>
            simp only [Option.isSome_some, true_iff]
            have hpi := List.find?_some hf
            have him := List.mem_of_find?_eq_some hf
            refine ⟨(n, hc), List.mem_cons_self _ _, by simpa using hu, hspec,
              i, him, ?_⟩
            simpa [decide_eq_true_eq] using hpi
        | none =>
            rw [ih]
            constructor
            · rintro ⟨q, hq, hqs⟩
              exact ⟨q, List.mem_cons_of_mem _ hq, hqs⟩
            · rintro ⟨q, hq, hq1, hq2, i, hi, hiopt⟩
              rcases List.mem_cons.mp hq with hq | hq
              · subst hq
                rw [List.find?_eq_none] at hf
                exact absurd hiopt (by simpa using hf i hi)
              · exact ⟨q, hq, hq1, hq2, i, hi, hiopt⟩

theorem checkPendingLoop_some (l : List (String × HookCaller)) :
    ∀ e, checkPendingLoop l = some e →
      ∃ p ∈ l, ∃ i ∈ p.2.hookimpls,
        e = PMError.validation i p.1 .unknownHook ∧ i.optionalhook = false ∧
        p.2.spec = none ∧ strStartsWith p.1 "_" = false := by
  induction l with
  | nil => intro e he; simp [checkPendingLoop] at he
  | cons p rest ih =>
    intro e he
    obtain ⟨n, hc⟩ := p
    unfold checkPendingLoop at he
    by_cases hu : strStartsWith n "_" = true
    · rw [if_pos hu] at he
      obtain ⟨q, hq, hqs⟩ := ih e he
      exact ⟨q, List.mem_cons_of_mem _ hq, hqs⟩
    · rw [if_neg hu] at he
      by_cases hs : hc.has_spec = true
      · rw [if_pos hs] at he
        obtain ⟨q, hq, hqs⟩ := ih e he
        exact ⟨q, List.mem_cons_of_mem _ hq, hqs⟩
      · rw [if_neg hs] at he
        have hspec : hc.spec = none := by
          unfold HookCaller.has_spec at hs
          cases hcs : hc.spec with
          | none => rfl
          | some s => rw [hcs] at hs; simp at hs
        cases hf : hc.get_hookimpls.find? (fun i => ¬ i.optionalhook = true) with
        | some i =>
            rw [hf] at he
            cases he
            have hpi := List.find?_some hf
            have him := List.mem_of_find?_eq_some hf
            exact ⟨(n, hc), List.mem_cons_self _ _, i, him, rfl,
              by simpa [decide_eq_true_eq] using hpi, hspec, by simpa using hu⟩
        | none =>
            rw [hf] at he
            obtain ⟨q, hq, hqs⟩ := ih e he
            exact ⟨q, List.mem_cons_of_mem _ hq, hqs⟩

/-- C8 counterexample: a state reached by one public `register` call holds a
hook caller (named `_h`) that has no bound specification and a non-optional
implementation, yet `check_pending` returns normally — refuting the claimed
"if and only if": `check_pending` skips every hook stored under a name with
a leading underscore. -/
theorem claim8_counterexample :
    claim8St.check_pending = none ∧
    ∃ p ∈ claim8St.hook, p.2.spec = none ∧
      ∃ i ∈ p.2.hookimpls, i.optionalhook = false := by
  constructor
  · rfl
  · exact ⟨("_h", ⟨"_h", none, [⟨1, some "p1", "_h", ["x"], false, false, .neutral⟩]⟩),
      by decide, rfl, ⟨1, some "p1", "_h", ["x"], false, false, .neutral⟩, by decide, rfl⟩

/-- C8 (amended): `check_pending` raises a validation failure if and only if
some hook caller stored under a name that does not start with an underscore
has no bound specification and holds at least one implementation not flagged
optional (callers stored under underscore-prefixed names are skipped, as the
relay's private attributes share its namespace); the raised error names an
offending implementation (hence its plugin) and its hook. -/
theorem claim8_check_pending_amended (st : PluginManager) :
    ((st.check_pending).isSome = true ↔
      ∃ p ∈ st.hook, strStartsWith p.1 "_" = false ∧ p.2.spec = none ∧
        ∃ i ∈ p.2.hookimpls, i.optionalhook = false) ∧
    (∀ e, st.check_pending = some e →
      ∃ p ∈ st.hook, ∃ i ∈ p.2.hookimpls,
        e = PMError.validation i p.1 .unknownHook ∧ i.optionalhook = false ∧
        p.2.spec = none ∧ strStartsWith p.1 "_" = false) :=
  ⟨checkPendingLoop_isSome st.hook, checkPendingLoop_some st.hook⟩

theorem claim8_witness :
    (claim8WSt.check_pending).isSome = true ∧
    (∃ p ∈ claim8WSt.hook, ∃ i ∈ p.2.hookimpls,
      PMError.validation ⟨1, some "p1", "h", ["x"], false, false, .neutral⟩ "h"
          ValidationReason.unknownHook = PMError.validation i p.1 .unknownHook ∧
        i.optionalhook = false ∧ p.2.spec = none ∧ strStartsWith p.1 "_" = false) := by
  constructor
  · exact ((claim8_check_pending_amended claim8WSt).1).mpr
      ⟨("h", ⟨"h", none, [⟨1, some "p1", "h", ["x"], false, false, .neutral⟩]⟩),
        by decide, by decide, rfl,
        ⟨1, some "p1", "h", ["x"], false, false, .neutral⟩, by decide, rfl⟩
  · exact (claim8_check_pending_amended claim8WSt).2 _ rfl

theorem registerImpls_needs (l : List HookImplementation) :
    ∀ (st : PluginManager) (pn : String) (pid : Nat),
    (registerImpls st pn pid l).1.needs_discovery = st.needs_discovery := by
  induction l with
  | nil => intro st pn pid; rfl
  | cons impl0 rest ih =>
    intro st pn pid
    unfold registerImpls
    simp only
    split
    · have h2 := ih (st.setHook impl0.specname
        ⟨impl0.specname, none, addHookimpl [] ({ impl0 with plugin := pid, plugin_name := some pn })⟩)
        pn pid
      rw [setHook_needs_discovery] at h2
      split
      · next st' callers heq => rw [heq] at h2; exact h2
      · next st' e heq => rw [heq] at h2; exact h2
    · next hc hg =>
      by_cases hspec : hc.has_spec = true
      · rw [if_pos hspec]
        split
        · rfl
        · have h2 := ih (st.setHook impl0.specname
            ⟨hc.name, hc.spec,
              addHookimpl hc.hookimpls ({ impl0 with plugin := pid, plugin_name := some pn })⟩)
            pn pid
          rw [setHook_needs_discovery] at h2
          split
          · next st' callers heq => rw [heq] at h2; exact h2
          · next st' e heq => rw [heq] at h2; exact h2
      · rw [if_neg hspec]
        have h2 := ih (st.setHook impl0.specname
          ⟨hc.name, hc.spec,
            addHookimpl hc.hookimpls ({ impl0 with plugin := pid, plugin_name := some pn })⟩)
          pn pid
        rw [setHook_needs_discovery] at h2
        split
        · next st' callers heq => rw [heq] at h2; exact h2
        · next st' e heq => rw [heq] at h2; exact h2

theorem register_needs (st : PluginManager) (ns : PluginNamespace) (nm : Option String) :
    (st.register ns nm).1.needs_discovery = st.needs_discovery := by
  unfold PluginManager.register
  simp only
  split
  · rfl
  · split
    · rfl
    · split
      · rfl
      · have h := registerImpls_needs ns.impls st (nm.getD ns.canonical) ns.id
        split
        · next st' e heq => rw [heq] at h; exact h
        · next st' callers heq => rw [heq] at h; exact h

theorem unregister_needs (st : PluginManager) (n : String) :
    (st.unregister n).1.needs_discovery = st.needs_discovery := by
  unfold PluginManager.unregister
  split <;> rfl

theorem set_blocked_needs (st : PluginManager) (n : String) (b : Bool) :
    (st.set_blocked n b).needs_discovery = st.needs_discovery := by
  unfold PluginManager.set_blocked
  split
  · split
    · rw [unregister_needs]
      rfl
    · rfl
  · rfl

theorem load_and_register_needs (st : PluginManager) (load : Option PluginNamespace)
    (pn : Option String) :
    (load_and_register st load pn).1.needs_discovery = st.needs_discovery := by
  unfold load_and_register
  split
  · rfl
  · next ns =>
    split
    · rfl
    · have h := register_needs st ns pn
      split
      · next st' e heq => rw [heq] at h; exact h
      · next st' r heq => rw [heq] at h; exact h

theorem loadEpsLoop_needs (eps : List EntryPointCandidate) :
    ∀ (st : PluginManager) (g nm : String) (ig : Bool),
    (loadEntrypointsLoop st g nm ig eps).1.needs_discovery = st.needs_discovery := by
  induction eps with
  | nil => intro st g nm ig; rfl
  | cons ep rest ih =>
    intro st g nm ig
    unfold loadEntrypointsLoop
    split
    · exact ih st g nm ig
    · cases hlr : load_and_register st ep.load (some ep.name) with
      | mk st1 res =>
        have h1 : st1.needs_discovery = st.needs_discovery := by
          have := load_and_register_needs st ep.load (some ep.name)
          rw [hlr] at this
          exact this
        cases res with
        | ok r =>
            dsimp only
            have h2 := ih st1 g nm ig
            split
            · next st2 c errs heq => rw [heq] at h2; exact h2.trans h1
            · next st2 e heq => rw [heq] at h2; exact h2.trans h1
        | error e1 =>
            dsimp only
            have hb : (st1.set_blocked ep.name true).needs_discovery = st.needs_discovery :=
              (set_blocked_needs st1 ep.name true).trans h1
            split
            · have h2 := ih (st1.set_blocked ep.name true) g nm ig
              split
              · next st3 c errs heq => rw [heq] at h2; exact h2.trans hb
              · next st3 e2 heq => rw [heq] at h2; exact h2.trans hb
            · exact hb

theorem loadModsLoop_needs (mods : List ModuleCandidate) :
    ∀ (st : PluginManager) (pfx : String) (ig : Bool),
    (loadModulesLoop st pfx ig mods).1.needs_discovery = st.needs_discovery := by
  induction mods with
  | nil => intro st pfx ig; rfl
  | cons m rest ih =>
    intro st pfx ig
    unfold loadModulesLoop
    by_cases hpf : strStartsWith m.mod_name pfx = true
    · rw [if_neg (by simp [hpf])]
      by_cases hskip : (st.is_registered_name (m.dist_name.getD m.mod_name) = true ∨
          st.is_blocked (m.dist_name.getD m.mod_name) = true)
      · rw [if_pos hskip]
        exact ih st pfx ig
      · rw [if_neg hskip]
        cases hlr : load_and_register st m.load (some (m.dist_name.getD m.mod_name)) with
        | mk st1 res =>
          have h1 : st1.needs_discovery = st.needs_discovery := by
            have := load_and_register_needs st m.load (some (m.dist_name.getD m.mod_name))
            rw [hlr] at this
            exact this
          cases res with
          | ok r =>
              dsimp only
              have h2 := ih st1 pfx ig
              split
              · next st2 c errs heq => rw [heq] at h2; exact h2.trans h1
              · next st2 e heq => rw [heq] at h2; exact h2.trans h1
          | error e1 =>
              dsimp only
              have hb : (st1.set_blocked (m.dist_name.getD m.mod_name) true).needs_discovery
                  = st.needs_discovery :=
                (set_blocked_needs st1 (m.dist_name.getD m.mod_name) true).trans h1
              split
              · have h2 := ih (st1.set_blocked (m.dist_name.getD m.mod_name) true) pfx ig
                split
                · next st3 c errs heq => rw [heq] at h2; exact h2.trans hb
                · next st3 e2 heq => rw [heq] at h2; exact h2.trans hb
              · exact hb
    · rw [if_pos (by simpa using hpf)]
      exact ih st pfx ig

theorem load_entrypoints_needs (st : PluginManager) (d : Bool)
    (eps : List EntryPointCandidate) (g nm : String) (ig : Bool) :
    (st.load_entrypoints d eps g nm ig).1.needs_discovery = st.needs_discovery := by
  unfold PluginManager.load_entrypoints
  split
  · rfl
  · exact loadEpsLoop_needs eps st g nm ig

theorem load_prefixed_modules_needs (st : PluginManager) (d : Bool)
    (mods : List ModuleCandidate) (pfx : String) (ig : Bool) :
    (st.load_prefixed_modules d mods pfx ig).1.needs_discovery = st.needs_discovery := by
  unfold PluginManager.load_prefixed_modules
  split
  · rfl
  · exact loadModsLoop_needs mods st pfx ig

theorem discover_needs (st : PluginManager) (env : DiscoveryEnv) (ig : Bool) :
    (st.discover env ig).1.needs_discovery = false := by
  unfold PluginManager.discover
  simp only
  split
  · rfl
  · split
    · next st1 e h1 =>
        have := load_entrypoints_needs { st with needs_discovery := false }
          env.disable_entrypoints env.entrypoints
          ({ st with needs_discovery := false } : PluginManager).discover_entry_point "" ig
        rw [h1] at this
        exact this
    · next st1 c1 e1 h1 =>
        have hn1 : st1.needs_discovery = false := by
          have := load_entrypoints_needs { st with needs_discovery := false }
            env.disable_entrypoints env.entrypoints
            ({ st with needs_discovery := false } : PluginManager).discover_entry_point "" ig
          rw [h1] at this
          exact this
        split
        · next st2 e h2 =>
            have := load_prefixed_modules_needs st1 env.disable_pfx_modules env.modules
              st1.discover_pfx ig
            rw [h2] at this
            exact this.trans hn1
        · next st2 c2 e2 h2 =>
            have := load_prefixed_modules_needs st1 env.disable_pfx_modules env.modules
              st1.discover_pfx ig
            rw [h2] at this
            exact this.trans hn1

theorem relay_noop_of_cleared {st : PluginManager} (h : st.needs_discovery = false)
    (env : DiscoveryEnv) (attr : String) :
    relay_getattribute st env attr = (st, false) := by
  unfold relay_getattribute
  rw [if_neg (by simp [h])]

/-- C9: the relay's attribute interception starts a discovery pass exactly
when the needs-discovery flag is set and the attribute is not one of the two
private fields; `discover` clears the flag before loading anything (the
state after zero processed candidates already has it cleared); and every
state reached midway through a discovery pass (after any number of
entry-point or module candidates) has the flag cleared, so a re-entrant hook
access during the pass never starts a second discovery pass. -/
theorem claim9_relay_discovery (st : PluginManager) (env : DiscoveryEnv) (attr : String) :
    ((relay_getattribute st env attr).2 = true ↔
      (¬ attr = "_needs_discovery" ∧ ¬ attr = "_manager" ∧ st.needs_discovery = true)) ∧
    ((st.discover env true).1.needs_discovery = false) ∧
    (∀ k a, (discoverMidEntrypoints st env k).needs_discovery = false ∧
      relay_getattribute (discoverMidEntrypoints st env k) env a =
        (discoverMidEntrypoints st env k, false)) ∧
    (∀ k a, (discoverMidModules st env k).needs_discovery = false ∧
      relay_getattribute (discoverMidModules st env k) env a =
        (discoverMidModules st env k, false)) := by
  refine ⟨?_, discover_needs st env true, ?_, ?_⟩
  · unfold relay_getattribute
    by_cases hcond : (¬ attr = "_needs_discovery" ∧ ¬ attr = "_manager" ∧
        st.needs_discovery = true)
    · rw [if_pos hcond]
      simp [hcond]
    · rw [if_neg hcond]
      simp [hcond]
  · intro k a
    have hmid : (discoverMidEntrypoints st env k).needs_discovery = false := by
      unfold discoverMidEntrypoints
      exact load_entrypoints_needs _ _ _ _ _ _
    exact ⟨hmid, relay_noop_of_cleared hmid env a⟩
  · intro k a
    have hmid : (discoverMidModules st env k).needs_discovery = false := by
      unfold discoverMidModules
      rw [load_prefixed_modules_needs]
      exact load_entrypoints_needs _ _ _ _ _ _
    exact ⟨hmid, relay_noop_of_cleared hmid env a⟩

theorem find?_map_replace_ne (l : List (String × HookCaller)) (n m : String)
    (hc : HookCaller) (hne : ¬ m = n) :
    (l.map (fun p => if p.1 = n then (n, hc) else p)).find? (fun p => p.1 = m) =
      l.find? (fun p => p.1 = m) := by
  induction l with
  | nil => rfl
  | cons a l ih =>
    by_cases ha : a.1 = n
    · simp only [List.map_cons, if_pos ha, List.find?_cons]
      rw [decide_eq_false (fun h => hne h.symm), decide_eq_false (ha ▸ fun h => hne h.symm)]
      exact ih
    · simp only [List.map_cons, if_neg ha, List.find?_cons]
      by_cases ham : a.1 = m
      · rw [decide_eq_true ham]
      · rw [decide_eq_false ham]
        exact ih

theorem find?_append_ne (l : List (String × HookCaller)) (n m : String)
    (hc : HookCaller) (hne : ¬ m = n) :
    (l ++ [(n, hc)]).find? (fun p => p.1 = m) = l.find? (fun p => p.1 = m) := by
  induction l with
  | nil =>
    simp only [List.nil_append, List.find?_cons, List.find?_nil]
    rw [decide_eq_false (fun h => hne h.symm)]
  | cons a l ih =>
    simp only [List.cons_append, List.find?_cons]
    by_cases ham : a.1 = m
    · rw [decide_eq_true ham]
    · rw [decide_eq_false ham]
      exact ih

theorem getHook_setHook_ne (st : PluginManager) (n m : String) (hc : HookCaller)
    (hne : ¬ m = n) : (st.setHook n hc).getHook m = st.getHook m := by
  unfold PluginManager.setHook PluginManager.getHook
  split
  · simp only [find?_map_replace_ne st.hook n m hc hne]
  · simp only [find?_append_ne st.hook n m hc hne]

/-- C10: when `register` raises a validation failure while processing a
later implementation of the namespace, the implementations processed
earlier in the same call stay attached to their hook callers (here: the
first implementation's freshly created caller remains installed), while the
name-to-plugin table and the plugin-to-hook-callers table are exactly as
before the call — plugin tables unchanged on error, hook callers not rolled
back. -/
theorem claim10_partial_registration (st : PluginManager) (ns : PluginNamespace)
    (nm : Option String) (i1 i2 : HookImplementation)
    (hc2 : HookCaller) (sp2 : HookSpecification)
    (himpls : ns.impls = [i1, i2])
    (hne : ¬ i2.specname = i1.specname)
    (hg1 : st.getHook i1.specname = none)
    (hg2 : st.getHook i2.specname = some hc2)
    (hs2 : hc2.spec = some sp2)
    (hbad : ∃ a ∈ i2.argnames, ¬ a ∈ sp2.argnames)
    (hbl : st.is_blocked (nm.getD ns.canonical) = false)
    (hrn : st.is_registered_name (nm.getD ns.canonical) = false)
    (hrm : st.is_registered_module ns.id = false) :
    (∃ e, st.register ns nm =
      (st.setHook i1.specname
        ⟨i1.specname, none,
          addHookimpl []
            ({ i1 with
                plugin := ns.id, plugin_name := some (nm.getD ns.canonical) })⟩,
        .error e)) ∧
    (st.register ns nm).1.plugins = st.plugins ∧
    (st.register ns nm).1.plugin2hookcallers = st.plugin2hookcallers ∧
    ∃ hc1, (st.register ns nm).1.getHook i1.specname = some hc1 ∧
      { i1 with plugin := ns.id, plugin_name := some (nm.getD ns.canonical) }
        ∈ hc1.hookimpls := by
  obtain ⟨e2, hv2⟩ : ∃ e, verify_hook hc2
      ({ i2 with
          plugin := ns.id, plugin_name := some (nm.getD ns.canonical) }) = some e := by
    cases hv : verify_hook hc2
        ({ i2 with
            plugin := ns.id, plugin_name := some (nm.getD ns.canonical) }) with
    | none => exact absurd hv (@verify_hook_fail_of_missing hc2 sp2 _ hs2 hbad)
    | some e => exact ⟨e, rfl⟩
  have key : st.register ns nm =
      (st.setHook i1.specname
        ⟨i1.specname, none,
          addHookimpl []
            ({ i1 with
                plugin := ns.id, plugin_name := some (nm.getD ns.canonical) })⟩,
        .error e2) := by
    unfold PluginManager.register
    simp only
    rw [if_neg (by simp [hbl]), if_neg (by simp [hrn]), if_neg (by simp [hrm]), himpls]
    unfold registerImpls
    dsimp only
    rw [hg1]
    dsimp only
    unfold registerImpls
    dsimp only
    rw [getHook_setHook_ne st i1.specname i2.specname _ hne, hg2]
    dsimp only
    rw [if_pos (by unfold HookCaller.has_spec; rw [hs2]; rfl)]
    rw [hv2]
  refine ⟨⟨_, key⟩, ?_, ?_, ?_⟩
  · rw [key]
    exact setHook_plugins st i1.specname _
  · rw [key]
    exact setHook_plugin2hookcallers st i1.specname _
  · rw [key]
    exact ⟨_, getHook_setHook_self st i1.specname _, mem_addHookimpl_self _ _⟩

theorem claim10_witness :
    (∃ e, claim10St.register claim10Ns none =
      (claim10St.setHook claim10I1.specname
        ⟨claim10I1.specname, none,
          addHookimpl []
            ({ claim10I1 with
                plugin := claim10Ns.id,
                plugin_name := some (Option.getD none claim10Ns.canonical) })⟩,
        .error e)) ∧
    (claim10St.register claim10Ns none).1.plugins = claim10St.plugins ∧
    (claim10St.register claim10Ns none).1.plugin2hookcallers =
      claim10St.plugin2hookcallers ∧
    ∃ hc1, (claim10St.register claim10Ns none).1.getHook claim10I1.specname =
        some hc1 ∧
      { claim10I1 with
          plugin := claim10Ns.id,
          plugin_name := some (Option.getD none claim10Ns.canonical) } ∈ hc1.hookimpls :=
  claim10_partial_registration claim10St claim10Ns none claim10I1 claim10I2
    ⟨"h2", some ⟨[], false, false⟩, []⟩ ⟨[], false, false⟩ rfl (by decide) rfl rfl rfl
    ⟨"y", by simp [claim10I2], by simp⟩ rfl rfl rfl
